import Mathlib

/-!
Verification development for the TraderCo trading platform
(exchange order book and matching engine, client replica book,
market-data gap recovery, FIFO sequencer, memory pool, order manager,
position/PnL accounting).

Each C++ component is shallowly embedded as executable Lean definitions
translated from the source files under `source/`; theorems then settle
the specification claims about those definitions.
-/

/- ------------------------------------------------------------------ -/
/- Common types and limits (source/traderco/common/types.h).
   `IS_TEST_SUITE` is force-defined in types.h, so OME_SIZE = 16. -/
/- ------------------------------------------------------------------ -/

/-- Compile-time limit OME_SIZE (test-suite build, always active). -/
def OME_SIZE : Nat := 16

/-- Maximum number of trading instruments. -/
def MAX_TICKERS : Nat := 8

/-- Maximum number of market participants (Limits::MAX_N_CLIENTS). -/
def MAX_N_CLIENTS : Nat := OME_SIZE

/-- Maximum order ids for a single instrument (Limits::MAX_ORDER_IDS). -/
def MAX_ORDER_IDS : Nat := 1024 * 1024

/-- Depth of the price-level direct-address table (Limits::MAX_PRICE_LEVELS). -/
def MAX_PRICE_LEVELS : Nat := OME_SIZE

/-- Bound of the FIFO sequencer's pending array. -/
def MAX_PENDING_ORDER_REQUESTS : Nat := 1024

/-- OrderID is uint64_t; the INVALID sentinel is its maximum value. -/
def OrderID_INVALID : Nat := 2 ^ 64 - 1

/-- TickerID is uint32_t; INVALID sentinel. -/
def TickerID_INVALID : Nat := 2 ^ 32 - 1

/-- ClientID is uint32_t; INVALID sentinel. -/
def ClientID_INVALID : Nat := 2 ^ 32 - 1

/-- Price is int64_t; INVALID sentinel is the maximum int64 value. -/
def Price_INVALID : Int := 2 ^ 63 - 1

/-- Qty is uint32_t; INVALID sentinel. -/
def Qty_INVALID : Nat := 2 ^ 32 - 1

/-- Priority is uint64_t; INVALID sentinel. -/
def Priority_INVALID : Nat := 2 ^ 64 - 1

/-- Side of an order (enum class Side : int8_t). -/
inductive Side where
  | INVALID
  | BUY
  | SELL
deriving DecidableEq, Repr

/-- side_to_value: 1 for BUY, -1 for SELL (the underlying int8 values). -/
def side_to_value : Side → Int
  | Side.BUY => 1
  | Side.SELL => -1
  | Side.INVALID => 0

/- ------------------------------------------------------------------ -/
/- Client responses and market updates
   (exchange/data/ome_client_response.h, ome_market_update.h). -/
/- ------------------------------------------------------------------ -/

/-- OMEClientResponse::Type. -/
inductive RespType where
  | INVALID
  | ACCEPTED
  | CANCELLED
  | FILLED
  | CANCEL_REJECTED
deriving DecidableEq, Repr

/-- OMEClientResponse: message from the matching engine back to a client. -/
structure OMEClientResponse where
  type : RespType
  client_id : Nat
  ticker_id : Nat
  client_order_id : Nat
  market_order_id : Nat
  side : Side
  price : Int
  qty_exec : Nat
  qty_remain : Nat
deriving DecidableEq, Repr

/-- OMEMarketUpdate::Type. -/
inductive UpdType where
  | INVALID
  | CLEAR
  | ADD
  | MODIFY
  | CANCEL
  | TRADE
  | SNAPSHOT_START
  | SNAPSHOT_END
deriving DecidableEq, Repr

/-- OMEMarketUpdate: market update published by the matching engine. -/
structure OMEMarketUpdate where
  type : UpdType
  order_id : Nat
  ticker_id : Nat
  side : Side
  price : Int
  qty : Nat
  priority : Nat
deriving DecidableEq, Repr

/- ------------------------------------------------------------------ -/
/- Position and PnL accounting (client/trading/position_manager.h).
   The C++ uses double arithmetic; the embedding uses exact rationals,
   which agree with binary64 on the integer-valued scenarios proved
   below (every intermediate value is exactly representable). -/
/- ------------------------------------------------------------------ -/

/-- A trading Position for one instrument (class Position).
    vwap_open is the price-times-qty open sum per side. -/
structure Position where
  position : Int
  pnl_real : Rat
  pnl_unreal : Rat
  pnl_total : Rat
  vwap_open_buy : Rat
  vwap_open_sell : Rat
  volume : Nat
deriving DecidableEq, Repr

/-- A freshly constructed, flat Position (all members zero). -/
def Position.flat : Position :=
  { position := 0, pnl_real := 0, pnl_unreal := 0, pnl_total := 0,
    vwap_open_buy := 0, vwap_open_sell := 0, volume := 0 }

/-- Read the vwap_open array cell for a side. -/
def Position.vwap_open (p : Position) : Side → Rat
  | Side.BUY => p.vwap_open_buy
  | Side.SELL => p.vwap_open_sell
  | Side.INVALID => 0

/-- Write the vwap_open array cell for a side. -/
def Position.setVwap (p : Position) : Side → Rat → Position
  | Side.BUY, v => { p with vwap_open_buy := v }
  | Side.SELL, v => { p with vwap_open_sell := v }
  | Side.INVALID, _ => p

/-- The opposite side used by Position::add_fill
    (BUY maps to SELL, anything else maps to BUY, as in the source's
    ternary on response.side). -/
def oppositeSide : Side → Side
  | Side.BUY => Side.SELL
  | _ => Side.BUY

/-- Position::add_fill applied to a FILLED response with the given
    side, price and executed qty.  Direct translation of the source. -/
def Position.add_fill (p : Position) (side : Side) (price : Int) (qty_exec : Nat) :
    Position :=
  let position_old := p.position
  let side_opposite := oppositeSide side
  let sv : Int := side_to_value side
  let position := position_old + (qty_exec : Int) * sv
  let volume := p.volume + qty_exec
  let p := { p with position := position, volume := volume }
  let p :=
    if position_old * sv ≥ 0 then
      -- simple open VWAP update, no change in realized PnL
      p.setVwap side (p.vwap_open side + (price * qty_exec : Int))
    else
      -- position size was decreased, realized PnL needs updating
      let vwap_opposite : Rat := p.vwap_open side_opposite / (position_old.natAbs : Rat)
      let p := p.setVwap side_opposite (vwap_opposite * (position.natAbs : Rat))
      let p := { p with pnl_real := p.pnl_real +
        ((min (qty_exec : Int) (position_old.natAbs : Int) * sv : Int) : Rat) *
          (vwap_opposite - (price : Rat)) }
      if position * position_old < 0 then
        -- the position's sign was flipped
        (p.setVwap side ((price : Rat) * (position.natAbs : Rat))).setVwap side_opposite 0
      else p
  let p :=
    if position = 0 then
      { p with vwap_open_buy := 0, vwap_open_sell := 0, pnl_unreal := 0 }
    else if position > 0 then
      { p with pnl_unreal :=
          ((price : Rat) - p.vwap_open_buy / (position.natAbs : Rat)) * (position.natAbs : Rat) }
    else
      { p with pnl_unreal :=
          (p.vwap_open_sell / (position.natAbs : Rat) - (price : Rat)) * (position.natAbs : Rat) }
  { p with pnl_total := p.pnl_unreal + p.pnl_real }

/- ------------------------------------------------------------------ -/
/- Memory pool (source/llbase/mempool.h).
   blocks[i] = true means the block is free.  A fatal ASSERT aborts the
   process; it is modelled as Except.error. -/
/- ------------------------------------------------------------------ -/

/-- The two fatal conditions of MemPool: a failed ASSERT on a block's
    free flag, and the pool-overrun ASSERT in update_next_free_index. -/
inductive PoolFatal where
  | assertFail
  | overrun
deriving DecidableEq, Repr

/-- State of MemPool<T>: the is_free flag of each block and the rolling
    cursor i_next_free.  The stored T objects play no role in the
    allocation discipline and are omitted. -/
structure MemPool where
  blocks : List Bool
  i_next_free : Nat
deriving DecidableEq, Repr

/-- MemPool::MemPool(n_blocks): every block free, cursor at 0. -/
def MemPool.mk0 (n_blocks : Nat) : MemPool :=
  { blocks := List.replicate n_blocks true, i_next_free := 0 }

/-- The while loop of MemPool::update_next_free_index: scan forward from
    position j (wrapping at blocks.length) for a free block; i is the
    starting cursor, and wrapping back to i with no free slot found is
    the fatal pool overrun.  fuel bounds the loop; the caller passes
    blocks.length, which the loop can never exhaust before wrapping. -/
def scanNextFree (blocks : List Bool) (i : Nat) : Nat → Nat → Option Nat
  | _, 0 => none
  | j, fuel + 1 =>
    if blocks.getD j false then some j
    else
      let j' := if j + 1 = blocks.length then 0 else j + 1
      if j' = i then none
      else scanNextFree blocks i j' fuel

/-- MemPool::update_next_free_index, run from cursor i. -/
def update_next_free_index (blocks : List Bool) (i : Nat) : Option Nat :=
  scanNextFree blocks i i blocks.length

/-- MemPool::allocate.  The ASSERT that the cursor block is free is the
    assertFail fatal; failure of the scan to find a next free block is
    the overrun fatal. -/
def MemPool.allocate (p : MemPool) : Except PoolFatal MemPool :=
  if p.blocks.getD p.i_next_free false = false then Except.error PoolFatal.assertFail
  else
    let blocks := p.blocks.set p.i_next_free false
    match update_next_free_index blocks p.i_next_free with
    | none => Except.error PoolFatal.overrun
    | some j => Except.ok { blocks := blocks, i_next_free := j }

/-- MemPool::deallocate of the block at index j (the source computes j
    from the object pointer).  Its ASSERTs: the index must be inside the
    pool and the block must not already be free. -/
def MemPool.deallocate (p : MemPool) (j : Nat) : Except PoolFatal MemPool :=
  if j < p.blocks.length then
    if p.blocks.getD j false then Except.error PoolFatal.assertFail
    else Except.ok { p with blocks := p.blocks.set j true }
  else Except.error PoolFatal.assertFail

/-- Number of free blocks (MemPool::get_n_blocks_free). -/
def MemPool.freeCount (p : MemPool) : Nat := p.blocks.countP (fun b => b)

/-- Number of live (allocated, not yet deallocated) objects. -/
def MemPool.liveCount (p : MemPool) : Nat := p.blocks.countP (fun b => !b)

/-- A client-visible pool operation. -/
inductive PoolOp where
  | alloc
  | dealloc (j : Nat)
deriving DecidableEq, Repr

/-- One pool operation. -/
def stepPool (p : MemPool) : PoolOp → Except PoolFatal MemPool
  | PoolOp.alloc => p.allocate
  | PoolOp.dealloc j => p.deallocate j

/-- Run a sequence of pool operations; a fatal ASSERT aborts the run. -/
def runPool (p : MemPool) : List PoolOp → Except PoolFatal MemPool
  | [] => Except.ok p
  | op :: ops =>
    match stepPool p op with
    | Except.error e => Except.error e
    | Except.ok q => runPool q ops

/-- Number of live objects after a prefix of operations, counted
    abstractly from the operation list alone (allocations minus
    deallocations), as the claim counts them. -/
def opsLive : List PoolOp → Nat
  | [] => 0
  | PoolOp.alloc :: ops => opsLive ops + 1
  | PoolOp.dealloc _ :: ops => opsLive ops - 1

/-- The operation prefixes never hold more than bound live objects. -/
def NeverExceeds (bound : Nat) (ops : List PoolOp) : Prop :=
  ∀ k, k ≤ ops.length → opsLive (ops.take k) ≤ bound

/-- Boolean trace validity used by the amended C9 claim: every
    allocation happens while at least two blocks are free (so the pool
    never becomes completely busy), and every deallocation targets a
    live in-range block. -/
def safeRun (p : MemPool) : List PoolOp → Bool
  | [] => true
  | op :: ops =>
    let pre :=
      match op with
      | PoolOp.alloc => decide (2 ≤ p.freeCount)
      | PoolOp.dealloc j => decide (j < p.blocks.length) && !(p.blocks.getD j false)
    pre &&
      match stepPool p op with
      | Except.ok q => safeRun q ops
      | Except.error _ => true

/- ------------------------------------------------------------------ -/
/- FIFO sequencer (source/traderco/exchange/networking/fifo_sequencer.h). -/
/- ------------------------------------------------------------------ -/

/-- OMEClientRequest::Type. -/
inductive ReqType where
  | INVALID
  | NEW
  | CANCEL
deriving DecidableEq, Repr

/-- OMEClientRequest: an order request from a market participant. -/
structure OMEClientRequest where
  type : ReqType
  client_id : Nat
  ticker_id : Nat
  order_id : Nat
  side : Side
  price : Int
  qty : Nat
deriving DecidableEq, Repr

/-- FIFOSequencer::PendingClientRequest: a request with its kernel
    receive timestamp (Nanos, int64). -/
structure PendingClientRequest where
  t_rx : Int
  request : OMEClientRequest
deriving DecidableEq, Repr

/-- State of the FIFOSequencer: the used slice
    pending_requests[0, n_pending_requests) of the bounded array. -/
structure FIFOSequencer where
  pending_requests : List PendingClientRequest
deriving DecidableEq, Repr

/-- FIFOSequencer::push_client_request: append, fatal when the bounded
    array is full. -/
def FIFOSequencer.push_client_request (s : FIFOSequencer)
    (request : OMEClientRequest) (t_rx : Int) : Option FIFOSequencer :=
  if s.pending_requests.length ≥ MAX_PENDING_ORDER_REQUESTS then none
  else some { pending_requests := s.pending_requests ++ [{ t_rx := t_rx, request := request }] }

/-- The comparator of PendingClientRequest::operator< is t_rx; std::sort
    produces some permutation that is nondecreasing in t_rx, here
    realised by mergeSort with the reflexive closure of that order. -/
def sortPending (l : List PendingClientRequest) : List PendingClientRequest :=
  l.mergeSort (fun a b => decide (a.t_rx ≤ b.t_rx))

/-- FIFOSequencer::sequence_and_publish: sort the pending slice by t_rx,
    write each request to the matching-engine inbound queue in order,
    reset the count.  Returns the published requests and the new state. -/
def FIFOSequencer.sequence_and_publish (s : FIFOSequencer) :
    List OMEClientRequest × FIFOSequencer :=
  if s.pending_requests.length = 0 then ([], s)
  else ((sortPending s.pending_requests).map (fun r => r.request),
        { pending_requests := [] })

/- ------------------------------------------------------------------ -/
/- Market data consumer gap recovery
   (source/traderco/client/data/market_data_consumer.cpp).
   The two std::map buffers are modelled as association lists sorted by
   key, which is the iteration order of std::map. -/
/- ------------------------------------------------------------------ -/

/-- State of the MarketDataConsumer relevant to recovery. -/
structure MDCState where
  queued_snapshot_updates : List (Nat × OMEMarketUpdate)
  queued_incremental_updates : List (Nat × OMEMarketUpdate)
  n_seq_inc_next : Nat
  is_in_recovery : Bool
  snapshot_joined : Bool
deriving DecidableEq, Repr

/-- Is an update one of the snapshot sentinels (the types skipped when
    collecting updates_to_process)? -/
def isSnapshotSentinel (u : OMEMarketUpdate) : Bool :=
  u.type = UpdType.SNAPSHOT_START || u.type = UpdType.SNAPSHOT_END

/-- The snapshot verification loop of snapshot_sync_check: walk the
    buffered snapshot in key order checking the keys are consecutive
    from expected; collect non-sentinel updates.  none models the
    snapshot_is_complete = false break on a key gap. -/
def scanSnap (expected : Nat) : List (Nat × OMEMarketUpdate) →
    Option (List OMEMarketUpdate)
  | [] => some []
  | (k, u) :: rest =>
    if k ≠ expected then none
    else
      match scanSnap (expected + 1) rest with
      | none => none
      | some l => some (if isSnapshotSentinel u then l else u :: l)

/-- The incremental verification loop of snapshot_sync_check: entries
    with key below the expected splice are skipped; from the first kept
    entry keys must be consecutive; non-sentinel updates are collected
    and the processed count recorded.  Returns (collected, advanced
    n_seq_inc_next, count); none models the incremental gap break, and
    the Nat with it is the value n_seq_inc_next has reached at the
    break (the source leaves it advanced on this failure path). -/
def scanInc (expected : Nat) : List (Nat × OMEMarketUpdate) →
    (Option (List OMEMarketUpdate × Nat) × Nat)
  | [] => (some ([], 0), expected)
  | (k, u) :: rest =>
    if k < expected then scanInc expected rest
    else if k ≠ expected then (none, expected)
    else
      match scanInc (expected + 1) rest with
      | (none, nx) => (none, nx)
      | (some (l, c), nx) =>
        (some ((if isSnapshotSentinel u then l else u :: l), c + 1), nx)

/-- MarketDataConsumer::snapshot_sync_check.  Returns the new state and
    the updates forwarded (written to the trading-engine queue). -/
def snapshot_sync_check (s : MDCState) : MDCState × List OMEMarketUpdate :=
  match s.queued_snapshot_updates with
  | [] => (s, [])
  | (_, u0) :: _ =>
    -- do not advance until a SNAPSHOT_START message is received
    if u0.type ≠ UpdType.SNAPSHOT_START then
      ({ s with queued_snapshot_updates := [] }, [])
    else
      match scanSnap 0 s.queued_snapshot_updates with
      | none =>
        -- snapshot stream n_seq packet loss
        ({ s with queued_snapshot_updates := [] }, [])
      | some snapBody =>
        let lastSnap := s.queued_snapshot_updates.getLastD (0, u0)
        if lastSnap.2.type ≠ UpdType.SNAPSHOT_END then
          -- snapshot still arriving
          (s, [])
        else
          let splice := lastSnap.2.order_id + 1
          match scanInc splice s.queued_incremental_updates with
          | (none, nx) =>
            -- incremental stream packet loss: n_seq_inc_next keeps the
            -- advanced value, only the snapshot buffer is cleared
            ({ s with queued_snapshot_updates := [], n_seq_inc_next := nx }, [])
          | (some (incBody, _), nx) =>
            ({ queued_snapshot_updates := [],
               queued_incremental_updates := [],
               n_seq_inc_next := nx,
               is_in_recovery := false,
               snapshot_joined := false },
             snapBody ++ incBody)

/- ------------------------------------------------------------------ -/
/- Order manager and risk manager
   (client/trading/order_manager.h, order_manager.cpp, risk_manager.h,
    om_order.h). -/
/- ------------------------------------------------------------------ -/

/-- OMOrder::State. -/
inductive OMState where
  | INVALID
  | PENDING_NEW
  | LIVE
  | PENDING_CANCEL
  | DEAD
deriving DecidableEq, Repr

/-- OMOrder: the one order tracked per (ticker, side). -/
structure OMOrder where
  ticker : Nat
  id : Nat
  side : Side
  price : Int
  qty : Nat
  state : OMState
deriving DecidableEq, Repr

/-- Default-constructed OMOrder (all INVALID sentinels). -/
def OMOrder.mk0 : OMOrder :=
  { ticker := TickerID_INVALID, id := OrderID_INVALID, side := Side.INVALID,
    price := Price_INVALID, qty := Qty_INVALID, state := OMState.INVALID }

/-- Risk::Result. -/
inductive RiskResult where
  | INVALID
  | SIZE_TOO_LARGE
  | POSITION_TOO_LARGE
  | LOSS_TOO_LARGE
  | ALLOWED
deriving DecidableEq, Repr

/-- RiskConf: risk configuration limits. -/
structure RiskConf where
  size_max : Nat
  position_max : Nat
  loss_max : Rat
deriving DecidableEq, Repr

/-- The position data Risk::get_trade_risk reads. -/
structure RiskPosition where
  position : Int
  pnl_total : Rat
deriving DecidableEq, Repr

/-- Risk::get_trade_risk. -/
def get_trade_risk (conf : RiskConf) (pos : RiskPosition) (side : Side) (qty : Nat) :
    RiskResult :=
  if qty > conf.size_max then RiskResult.SIZE_TOO_LARGE
  else if (pos.position + side_to_value side * qty).natAbs > conf.position_max then
    RiskResult.POSITION_TOO_LARGE
  else if pos.pnl_total < conf.loss_max then RiskResult.LOSS_TOO_LARGE
  else RiskResult.ALLOWED

/-- OrderManager state: the tracked OMOrder per (ticker, side) and the
    running client order id. -/
structure OrderManager where
  ticker_to_order_by_side : Nat → Side → OMOrder
  next_oid : Nat

/-- OrderManager::request_new_order: send a NEW request, overwrite the
    passed order with state PENDING_NEW, advance next_oid.  Returns the
    mutated order, the sent request, and the advanced next_oid. -/
def request_new_order (client_id : Nat) (next_oid : Nat) (ticker : Nat)
    (price : Int) (side : Side) (qty : Nat) :
    OMOrder × OMEClientRequest × Nat :=
  let req : OMEClientRequest :=
    { type := ReqType.NEW, client_id := client_id, ticker_id := ticker,
      order_id := next_oid, side := side, price := price, qty := qty }
  ({ ticker := ticker, id := next_oid, side := side, price := price,
     qty := qty, state := OMState.PENDING_NEW }, req, next_oid + 1)

/-- OrderManager::request_cancel_order: send a CANCEL request and set
    the passed order's state to PENDING_CANCEL. -/
def request_cancel_order (client_id : Nat) (order : OMOrder) :
    OMOrder × OMEClientRequest :=
  let req : OMEClientRequest :=
    { type := ReqType.CANCEL, client_id := client_id, ticker_id := order.ticker,
      order_id := order.id, side := order.side, price := order.price, qty := order.qty }
  ({ order with state := OMState.PENDING_CANCEL }, req)

/-- OrderManager::manage_order acting on the OMOrder reference it was
    given.  Returns the (possibly mutated) order, the requests sent, and
    the advanced next_oid. -/
def manage_order (client_id : Nat) (conf : RiskConf) (pos : RiskPosition)
    (next_oid : Nat) (order : OMOrder) (ticker : Nat) (price : Int)
    (side : Side) (qty : Nat) : OMOrder × List OMEClientRequest × Nat :=
  match order.state with
  | OMState.LIVE =>
    if order.price ≠ price then
      let (o, req) := request_cancel_order client_id order
      (o, [req], next_oid)
    else (order, [], next_oid)
  | OMState.INVALID | OMState.DEAD =>
    if price ≠ Price_INVALID then
      if get_trade_risk conf pos side qty = RiskResult.ALLOWED then
        let (o, req, oid) := request_new_order client_id next_oid ticker price side qty
        (o, [req], oid)
      else (order, [], next_oid)
    else (order, [], next_oid)
  | OMState.PENDING_NEW | OMState.PENDING_CANCEL => (order, [], next_oid)

/-- OrderManager::manage_orders.  NOTE, faithful to the source: the
    source binds `auto bid_order = ticker_to_order_by_side.at(...)` BY
    VALUE, so manage_order mutates a local copy that is then discarded;
    only next_oid (a member accessed through this) persists.  The
    tracked table is therefore returned unchanged. -/
def manage_orders (om : OrderManager) (client_id : Nat) (conf : RiskConf)
    (pos : RiskPosition) (ticker : Nat) (bid ask : Int) (trade_size : Nat) :
    OrderManager × List OMEClientRequest :=
  let bid_order := om.ticker_to_order_by_side ticker Side.BUY
  let r1 := manage_order client_id conf pos om.next_oid bid_order ticker bid
    Side.BUY trade_size
  let ask_order := om.ticker_to_order_by_side ticker Side.SELL
  let r2 := manage_order client_id conf pos r1.2.2 ask_order ticker ask
    Side.SELL trade_size
  ({ om with next_oid := r2.2.2 }, r1.2.1 ++ r2.2.1)

/-- A freshly constructed OrderManager: every tracked order is
    default-constructed, next_oid is 1. -/
def OrderManager.mk0 : OrderManager :=
  { ticker_to_order_by_side := fun _ _ => OMOrder.mk0, next_oid := 1 }

/- ------------------------------------------------------------------ -/
/- Exchange order book
   (exchange/orders/ome_order.h, ome_order_book.h, ome_order_book.cpp).
   The circular doubly linked structures are embedded as lists: a price
   level's FIFO of orders as the list from order_0 following next, and
   each side's levels as the list from bids_by_price / asks_by_price
   following next (decreasing price for bids, increasing for asks). -/
/- ------------------------------------------------------------------ -/

/-- OMEOrder: one resting order (link pointers are represented by list
    positions). -/
structure OMEOrder where
  ticker_id : Nat
  client_id : Nat
  client_order_id : Nat
  market_order_id : Nat
  side : Side
  price : Int
  qty : Nat
  priority : Nat
deriving DecidableEq, Repr

/-- OMEOrdersAtPrice: a price level with its FIFO of orders (order_0
    first). -/
structure OMEOrdersAtPrice where
  side : Side
  price : Int
  orders : List OMEOrder
deriving DecidableEq, Repr

/-- OMEOrderBook state.  The client_id -> client_order_id direct-address
    table holds exactly the live orders (it is written in
    add_order_to_book and cleared in remove_order_from_book, in lockstep
    with level membership), so lookups through it are embedded as
    searches over the levels. -/
structure OMEOrderBook where
  bids_by_price : List OMEOrdersAtPrice
  asks_by_price : List OMEOrdersAtPrice
  next_market_oid : Nat
deriving DecidableEq, Repr

/-- A freshly constructed book. -/
def OMEOrderBook.mk0 : OMEOrderBook :=
  { bids_by_price := [], asks_by_price := [], next_market_oid := 1 }

/-- The fatal aborts of the book: std::array::at throwing out of a
    noexcept member (std::terminate). -/
inductive BookCrash where
  | mapOutOfRange
deriving DecidableEq, Repr

/-- price_to_index: the C++ computes price % MAX_PRICE_LEVELS after the
    usual arithmetic conversion of the int64 price to size_t. -/
def price_to_index (price : Int) : Nat :=
  (price % (2 ^ 64 : Int)).toNat % MAX_PRICE_LEVELS

/-- get_level_for_price: the direct-address array holds every live
    level keyed by price_to_index (collision freedom across the live
    set is a caller guarantee, spec sections 3 and 9). -/
def OMEOrderBook.get_level_for_price (b : OMEOrderBook) (price : Int) :
    Option OMEOrdersAtPrice :=
  (b.bids_by_price ++ b.asks_by_price).find?
    (fun l => price_to_index l.price = price_to_index price)

/-- get_next_priority: 1 for a fresh level, else the tail order's
    priority + 1 (order_0->prev is the FIFO tail). -/
def OMEOrderBook.get_next_priority (b : OMEOrderBook) (price : Int) : Nat :=
  match b.get_level_for_price price with
  | none => 1
  | some lvl => (lvl.orders.getLastD
      { ticker_id := 0, client_id := 0, client_order_id := 0, market_order_id := 0,
        side := Side.INVALID, price := 0, qty := 0, priority := 0 }).priority + 1

/-- Is level l strictly less aggressive than a new level of this side
    and price (the comparison driving add_price_level's walk)? -/
def lessAggressive (side : Side) (price : Int) (l : OMEOrdersAtPrice) : Bool :=
  (side = Side.SELL && price < l.price) || (side = Side.BUY && l.price < price)

/-- add_price_level: walk the sorted level list from the head and insert
    the new level before the first strictly less-aggressive one, or at
    the tail if every level is at least as aggressive. -/
def add_price_level (side : Side) (price : Int) (lvl : OMEOrdersAtPrice) :
    List OMEOrdersAtPrice → List OMEOrdersAtPrice
  | [] => [lvl]
  | l :: ls =>
    if lessAggressive side price l then lvl :: l :: ls
    else l :: add_price_level side price lvl ls

/-- Append an order at the tail of the level with the given index (the
    found level of add_order_to_book's else branch). -/
def appendToLevel (idx : Nat) (o : OMEOrder) :
    List OMEOrdersAtPrice → List OMEOrdersAtPrice :=
  List.map (fun l =>
    if price_to_index l.price = idx then { l with orders := l.orders ++ [o] } else l)

/-- add_order_to_book: create a level when none exists at the order's
    price, else append at the FIFO tail of the existing level.  The
    client order table gains the order implicitly (it is the live set). -/
def OMEOrderBook.add_order_to_book (b : OMEOrderBook) (o : OMEOrder) : OMEOrderBook :=
  match b.get_level_for_price o.price with
  | none =>
    let lvl : OMEOrdersAtPrice := { side := o.side, price := o.price, orders := [o] }
    -- the ternary (side == BUY ? bids_by_price : asks_by_price)
    if o.side = Side.BUY then
      { b with bids_by_price := add_price_level o.side o.price lvl b.bids_by_price }
    else
      { b with asks_by_price := add_price_level o.side o.price lvl b.asks_by_price }
  | some _ =>
    { b with
      bids_by_price := appendToLevel (price_to_index o.price) o b.bids_by_price,
      asks_by_price := appendToLevel (price_to_index o.price) o b.asks_by_price }

/-- Erase the first order with the given market order id from a FIFO. -/
def eraseOrder (market_oid : Nat) : List OMEOrder → List OMEOrder
  | [] => []
  | o :: os => if o.market_order_id = market_oid then os else o :: eraseOrder market_oid os

/-- remove_order_from_book restricted to one side's level list: unlink
    the order from its level and remove the level if it was the last
    order there (remove_price_level). -/
def removeOrderFromSide (o : OMEOrder) :
    List OMEOrdersAtPrice → List OMEOrdersAtPrice
  | [] => []
  | l :: ls =>
    if price_to_index l.price = price_to_index o.price then
      let os := eraseOrder o.market_order_id l.orders
      if os.isEmpty then ls else { l with orders := os } :: ls
    else l :: removeOrderFromSide o ls

/-- remove_order_from_book: the level is found through the price table;
    the side whose list is relinked is the order's side. -/
def OMEOrderBook.remove_order_from_book (b : OMEOrderBook) (o : OMEOrder) : OMEOrderBook :=
  if o.side = Side.BUY then
    { b with bids_by_price := removeOrderFromSide o b.bids_by_price }
  else
    { b with asks_by_price := removeOrderFromSide o b.asks_by_price }

/-- The client_id -> client_order_id table lookup of cancel: the live
    order with these ids, if any (INV-4: the table holds an order iff it
    is in a level list). -/
def OMEOrderBook.lookupClientOrder (b : OMEOrderBook) (client_id order_id : Nat) :
    Option OMEOrder :=
  ((b.bids_by_price ++ b.asks_by_price).flatMap (fun l => l.orders)).find?
    (fun o => o.client_id = client_id && o.client_order_id = order_id)

/-- Does the incoming order NOT cross the resting price (the break test
    of the find_match loops: price < ask price for BUY, price > bid
    price for SELL)? -/
def breaksCross (side : Side) (price resting_price : Int) : Bool :=
  match side with
  | Side.BUY => price < resting_price
  | Side.SELL => resting_price < price
  | Side.INVALID => true

/-- Total number of resting orders in a level list (termination measure
    of the matching loop). -/
def ordersCount (ls : List OMEOrdersAtPrice) : Nat :=
  (ls.map (fun l => l.orders.length)).sum

/-- The FILLED response to the incoming (aggressive) order built by
    OMEOrderBook::match; qty_remain is the remainder after this fill. -/
def respFilledIncoming (ticker_id client_id client_oid new_market_oid : Nat)
    (side : Side) (resting_price : Int) (fill_qty qty_remains : Nat) :
    OMEClientResponse :=
  { type := RespType.FILLED, client_id := client_id, ticker_id := ticker_id,
    client_order_id := client_oid, market_order_id := new_market_oid,
    side := side, price := resting_price, qty_exec := fill_qty,
    qty_remain := qty_remains }

/-- The FILLED response to the passive resting order built by
    OMEOrderBook::match; o is the resting order after the fill was
    subtracted (the source reads order->qty after the decrement). -/
def respFilledResting (ticker_id : Nat) (o : OMEOrder) (fill_qty : Nat) :
    OMEClientResponse :=
  { type := RespType.FILLED, client_id := o.client_id, ticker_id := ticker_id,
    client_order_id := o.client_order_id, market_order_id := o.market_order_id,
    side := o.side, price := o.price, qty_exec := fill_qty,
    qty_remain := o.qty }

/-- The TRADE market update of OMEOrderBook::match. -/
def updTrade (ticker_id : Nat) (side : Side) (resting_price : Int) (fill_qty : Nat) :
    OMEMarketUpdate :=
  { type := UpdType.TRADE, order_id := OrderID_INVALID, ticker_id := ticker_id,
    side := side, price := resting_price, qty := fill_qty,
    priority := Priority_INVALID }

/-- The CANCEL market update emitted by OMEOrderBook::match when all of
    the resting order's qty was taken; order_qty is the resting qty
    before the final fill. -/
def updCancelMatched (ticker_id : Nat) (o : OMEOrder) (order_qty : Nat) :
    OMEMarketUpdate :=
  { type := UpdType.CANCEL, order_id := o.market_order_id, ticker_id := ticker_id,
    side := o.side, price := o.price, qty := order_qty,
    priority := Priority_INVALID }

/-- The MODIFY market update emitted by OMEOrderBook::match on a partial
    fill; o is the resting order after the decrement. -/
def updModify (ticker_id : Nat) (o : OMEOrder) : OMEMarketUpdate :=
  { type := UpdType.MODIFY, order_id := o.market_order_id, ticker_id := ticker_id,
    side := o.side, price := o.price, qty := o.qty, priority := o.priority }

/-- The while loops of OMEOrderBook::find_match together with the body
    OMEOrderBook::match, acting on the opposite side's level list.
    Returns (qty_remains, levels, responses, market updates).  Each
    iteration matches the head order of the best level; a fully consumed
    order is unlinked (and its level removed when it was the last); a
    partial fill leaves the order at the level head, after which the
    loop exits since qty_remains reached 0. -/
def findMatchLoop (ticker_id client_id : Nat) (side : Side)
    (client_oid new_market_oid : Nat) (price : Int) :
    (qtyRem : Nat) → (levels : List OMEOrdersAtPrice) →
    Nat × List OMEOrdersAtPrice × List OMEClientResponse × List OMEMarketUpdate
  | 0, ls => (0, ls, [], [])
  | q + 1, [] => (q + 1, [], [], [])
  | q + 1, lvl :: rest =>
    match hord : lvl.orders with
    | [] => (q + 1, lvl :: rest, [], [])
    | o :: os =>
      if breaksCross side price o.price then (q + 1, lvl :: rest, [], [])
      else
        let fill_qty := min (q + 1) o.qty
        let qty_remains := q + 1 - fill_qty
        let oPost := { o with qty := o.qty - fill_qty }
        let resps :=
          [respFilledIncoming ticker_id client_id client_oid new_market_oid side
             o.price fill_qty qty_remains,
           respFilledResting ticker_id oPost fill_qty]
        let trade := updTrade ticker_id side o.price fill_qty
        if o.qty - fill_qty = 0 then
          let levels2 := if os.isEmpty then rest else { lvl with orders := os } :: rest
          let r := findMatchLoop ticker_id client_id side client_oid new_market_oid
            price qty_remains levels2
          (r.1, r.2.1, resps ++ r.2.2.1,
           [trade, updCancelMatched ticker_id o o.qty] ++ r.2.2.2)
        else
          (qty_remains, { lvl with orders := oPost :: os } :: rest, resps,
           [trade, updModify ticker_id oPost])
termination_by _q levels => ordersCount levels
decreasing_by
  split
  · simp only [ordersCount, List.map_cons, List.sum_cons, hord, List.length_cons]
    omega
  · simp only [ordersCount, List.map_cons, List.sum_cons, hord, List.length_cons]
    omega

/-- OMEOrderBook::find_match: dispatch the matching loop against the
    opposite side (asks for an incoming BUY, bids for an incoming SELL);
    any other side value runs neither loop. -/
def OMEOrderBook.find_match (b : OMEOrderBook) (client_id client_oid ticker_id : Nat)
    (side : Side) (price : Int) (qty : Nat) (new_market_oid : Nat) :
    Nat × OMEOrderBook × List OMEClientResponse × List OMEMarketUpdate :=
  match side with
  | Side.BUY =>
    let r := findMatchLoop ticker_id client_id side client_oid new_market_oid price
      qty b.asks_by_price
    (r.1, { b with asks_by_price := r.2.1 }, r.2.2.1, r.2.2.2)
  | Side.SELL =>
    let r := findMatchLoop ticker_id client_id side client_oid new_market_oid price
      qty b.bids_by_price
    (r.1, { b with bids_by_price := r.2.1 }, r.2.2.1, r.2.2.2)
  | Side.INVALID => (qty, b, [], [])

/-- OMEOrderBook::add.  The ACCEPTED response is emitted first, then
    matching runs, then any remainder rests in the book with an ADD
    market update.  Resting the remainder writes the client order table
    through std::array::at, which aborts (noexcept) when client_id or
    client_order_id is outside the table. -/
def OMEOrderBook.add (b : OMEOrderBook) (client_id client_oid ticker_id : Nat)
    (side : Side) (price : Int) (qty : Nat) :
    Except BookCrash (OMEOrderBook × List OMEClientResponse × List OMEMarketUpdate) :=
  let new_market_oid := b.next_market_oid
  let b1 := { b with next_market_oid := b.next_market_oid + 1 }
  let resp0 : OMEClientResponse :=
    { type := RespType.ACCEPTED, client_id := client_id, ticker_id := ticker_id,
      client_order_id := client_oid, market_order_id := new_market_oid,
      side := side, price := price, qty_exec := 0, qty_remain := qty }
  let m := b1.find_match client_id client_oid ticker_id side price qty new_market_oid
  let qty_remains := m.1
  let b2 := m.2.1
  if qty_remains ≠ 0 then
    if client_id < MAX_N_CLIENTS ∧ client_oid < MAX_ORDER_IDS then
      let priority := b2.get_next_priority price
      let order : OMEOrder :=
        { ticker_id := ticker_id, client_id := client_id, client_order_id := client_oid,
          market_order_id := new_market_oid, side := side, price := price,
          qty := qty_remains, priority := priority }
      Except.ok (b2.add_order_to_book order, resp0 :: m.2.2.1,
        m.2.2.2 ++ [{ type := UpdType.ADD, order_id := new_market_oid,
                      ticker_id := ticker_id, side := side, price := price,
                      qty := qty_remains, priority := priority }])
    else Except.error BookCrash.mapOutOfRange
  else Except.ok (b2, resp0 :: m.2.2.1, m.2.2.2)

/-- OMEOrderBook::cancel.  An in-range lookup that finds no live order
    produces exactly one CANCEL_REJECTED response (market_order_id
    INVALID) and nothing else; client_id outside the outer table is
    caught by the explicit size check, but an order_id outside the inner
    std::array makes .at throw out of this noexcept member, aborting the
    process. -/
def OMEOrderBook.cancel (b : OMEOrderBook) (client_id order_id ticker_id : Nat) :
    Except BookCrash (OMEOrderBook × OMEClientResponse × List OMEMarketUpdate) :=
  let rejected : OMEClientResponse :=
    { type := RespType.CANCEL_REJECTED, client_id := client_id, ticker_id := ticker_id,
      client_order_id := order_id, market_order_id := OrderID_INVALID,
      side := Side.INVALID, price := Price_INVALID, qty_exec := Qty_INVALID,
      qty_remain := Qty_INVALID }
  if client_id < MAX_N_CLIENTS then
    if order_id < MAX_ORDER_IDS then
      match b.lookupClientOrder client_id order_id with
      | none => Except.ok (b, rejected, [])
      | some o =>
        Except.ok (b.remove_order_from_book o,
          { type := RespType.CANCELLED, client_id := client_id, ticker_id := ticker_id,
            client_order_id := order_id, market_order_id := o.market_order_id,
            side := o.side, price := o.price, qty_exec := Qty_INVALID,
            qty_remain := o.qty },
          [{ type := UpdType.CANCEL, order_id := o.market_order_id,
             ticker_id := ticker_id, side := o.side, price := o.price,
             qty := 0, priority := o.priority }])
    else Except.error BookCrash.mapOutOfRange
  else Except.ok (b, rejected, [])

/-- A public book operation (the NEW / CANCEL dispatch of the matching
    engine). -/
inductive BookOp where
  | add (client_id client_oid ticker_id : Nat) (side : Side) (price : Int) (qty : Nat)
  | cancel (client_id order_id ticker_id : Nat)
deriving DecidableEq, Repr

/-- Apply one book operation, discarding the emitted messages. -/
def stepBook (b : OMEOrderBook) : BookOp → Except BookCrash OMEOrderBook
  | BookOp.add c o t s p q => (b.add c o t s p q).map (fun r => r.1)
  | BookOp.cancel c o t => (b.cancel c o t).map (fun r => r.1)

/-- Run a sequence of book operations from a given book. -/
def runBook (b : OMEOrderBook) : List BookOp → Except BookCrash OMEOrderBook
  | [] => Except.ok b
  | op :: ops =>
    match stepBook b op with
    | Except.error e => Except.error e
    | Except.ok b2 => runBook b2 ops

/- ------------------------------------------------------------------ -/
/- Greedy matching in the words of the specification (section 4.3):
   used to settle C1 by comparison with findMatchLoop. -/
/- ------------------------------------------------------------------ -/

/-- Modelled from the spec: the per-match fill schedule of section 4.3,
    on the opposite side's resting orders taken in price-then-priority
    order (the book order).  While the book crosses, the smaller of the
    remaining incoming qty and the resting order's qty is filled. -/
def specFills (side : Side) (price : Int) :
    Nat → List OMEOrder → List (OMEOrder × Nat)
  | 0, _ => []
  | _ + 1, [] => []
  | q + 1, o :: os =>
    if breaksCross side price o.price then []
    else
      let f := min (q + 1) o.qty
      (o, f) :: specFills side price (q + 1 - f) os

/-- Render the responses and market updates that section 4.3 prescribes
    for a fill schedule: per fill two FILLED responses, one TRADE at the
    resting price, then either a CANCEL (resting order exhausted) or a
    MODIFY (resting order retains qty).  The first component tracks the
    incoming order's remaining qty. -/
def renderFills (ticker_id client_id client_oid new_market_oid : Nat) (side : Side) :
    Nat → List (OMEOrder × Nat) → List OMEClientResponse × List OMEMarketUpdate
  | _, [] => ([], [])
  | q, (o, f) :: fs =>
    let rem := q - f
    let oPost := { o with qty := o.qty - f }
    let r := renderFills ticker_id client_id client_oid new_market_oid side rem fs
    ([respFilledIncoming ticker_id client_id client_oid new_market_oid side
        o.price f rem,
      respFilledResting ticker_id oPost f] ++ r.1,
     ([updTrade ticker_id side o.price f] ++
      (if o.qty - f = 0 then [updCancelMatched ticker_id o o.qty]
       else [updModify ticker_id oPost])) ++ r.2)

/-- Total qty consumed by a fill schedule. -/
def fillsSum (fs : List (OMEOrder × Nat)) : Nat := (fs.map (fun p => p.2)).sum

/- ------------------------------------------------------------------ -/
/- Client-side replica order book
   (client/orders/te_order.h, te_order_book.h, te_order_book.cpp). -/
/- ------------------------------------------------------------------ -/

/-- TEOrder: one order of the replica book. -/
structure TEOrder where
  id : Nat
  side : Side
  price : Int
  qty : Nat
  priority : Nat
deriving DecidableEq, Repr

/-- TEOrdersAtPrice: a price level of the replica book. -/
structure TEOrdersAtPrice where
  side : Side
  price : Int
  orders : List TEOrder
deriving DecidableEq, Repr

/-- The Best Bid Offer tuple. -/
structure BBO where
  bid : Int
  ask : Int
  bid_qty : Nat
  ask_qty : Nat
deriving DecidableEq, Repr

/-- Default-constructed BBO (all INVALID). -/
def BBO.mk0 : BBO :=
  { bid := Price_INVALID, ask := Price_INVALID,
    bid_qty := Qty_INVALID, ask_qty := Qty_INVALID }

/-- TEOrderBook state (level lists embedded like the exchange book's;
    the id_to_order direct-address table again holds exactly the live
    orders and is embedded as a search over the levels). -/
structure TEOrderBook where
  bids_by_price : List TEOrdersAtPrice
  asks_by_price : List TEOrdersAtPrice
  bbo : BBO
deriving DecidableEq, Repr

/-- A freshly constructed replica book. -/
def TEOrderBook.mk0 : TEOrderBook :=
  { bids_by_price := [], asks_by_price := [], bbo := BBO.mk0 }

/-- TEOrderBook::get_level_for_price over the shared direct-address
    array (same hashing as the exchange book). -/
def TEOrderBook.get_level_for_price (b : TEOrderBook) (price : Int) :
    Option TEOrdersAtPrice :=
  (b.bids_by_price ++ b.asks_by_price).find?
    (fun l => price_to_index l.price = price_to_index price)

/-- TEOrderBook::add_price_level: same sorted-walk insertion as the
    exchange book. -/
def te_add_price_level (side : Side) (price : Int) (lvl : TEOrdersAtPrice) :
    List TEOrdersAtPrice → List TEOrdersAtPrice
  | [] => [lvl]
  | l :: ls =>
    if (side = Side.SELL && price < l.price) || (side = Side.BUY && l.price < price) then
      lvl :: l :: ls
    else l :: te_add_price_level side price lvl ls

/-- Append an order at the tail of the replica level with this index. -/
def teAppendToLevel (idx : Nat) (o : TEOrder) :
    List TEOrdersAtPrice → List TEOrdersAtPrice :=
  List.map (fun l =>
    if price_to_index l.price = idx then { l with orders := l.orders ++ [o] } else l)

/-- TEOrderBook::add_order. -/
def TEOrderBook.add_order (b : TEOrderBook) (o : TEOrder) : TEOrderBook :=
  match b.get_level_for_price o.price with
  | none =>
    let lvl : TEOrdersAtPrice := { side := o.side, price := o.price, orders := [o] }
    if o.side = Side.BUY then
      { b with bids_by_price := te_add_price_level o.side o.price lvl b.bids_by_price }
    else
      { b with asks_by_price := te_add_price_level o.side o.price lvl b.asks_by_price }
  | some _ =>
    { b with
      bids_by_price := teAppendToLevel (price_to_index o.price) o b.bids_by_price,
      asks_by_price := teAppendToLevel (price_to_index o.price) o b.asks_by_price }

/-- Erase the first replica order with the given id from a FIFO. -/
def teEraseOrder (id : Nat) : List TEOrder → List TEOrder
  | [] => []
  | o :: os => if o.id = id then os else o :: teEraseOrder id os

/-- TEOrderBook::remove_order restricted to one side's level list. -/
def teRemoveOrderFromSide (o : TEOrder) :
    List TEOrdersAtPrice → List TEOrdersAtPrice
  | [] => []
  | l :: ls =>
    if price_to_index l.price = price_to_index o.price then
      let os := teEraseOrder o.id l.orders
      if os.isEmpty then ls else { l with orders := os } :: ls
    else l :: teRemoveOrderFromSide o ls

/-- TEOrderBook::remove_order. -/
def TEOrderBook.remove_order (b : TEOrderBook) (o : TEOrder) : TEOrderBook :=
  if o.side = Side.BUY then
    { b with bids_by_price := teRemoveOrderFromSide o b.bids_by_price }
  else
    { b with asks_by_price := teRemoveOrderFromSide o b.asks_by_price }

/-- The id_to_order lookup of MODIFY and CANCEL handling. -/
def TEOrderBook.lookupOrder (b : TEOrderBook) (id : Nat) : Option TEOrder :=
  ((b.bids_by_price ++ b.asks_by_price).flatMap (fun l => l.orders)).find?
    (fun o => o.id = id)

/-- Replace the qty of the order with the given id (the in-place
    order->qty = update.qty of the MODIFY case). -/
def teSetQty (id qty : Nat) : List TEOrdersAtPrice → List TEOrdersAtPrice :=
  List.map (fun l =>
    { l with orders := l.orders.map (fun o => if o.id = id then { o with qty := qty } else o) })

/-- Sum of the quantities of the orders at a level. -/
def teLevelQty (l : TEOrdersAtPrice) : Nat := (l.orders.map (fun o => o.qty)).sum

/-- TEOrderBook::update_bbo: recompute the flagged sides from the head
    levels (accumulating every order's qty at the head level), or set
    them INVALID when the side is empty. -/
def TEOrderBook.update_bbo (b : TEOrderBook)
    (should_update_bid should_update_ask : Bool) : TEOrderBook :=
  let b :=
    if should_update_bid then
      match b.bids_by_price with
      | lvl :: _ =>
        { b with bbo := { b.bbo with bid := lvl.price, bid_qty := teLevelQty lvl } }
      | [] =>
        { b with bbo := { b.bbo with bid := Price_INVALID, bid_qty := Qty_INVALID } }
    else b
  if should_update_ask then
    match b.asks_by_price with
    | lvl :: _ =>
      { b with bbo := { b.bbo with ask := lvl.price, ask_qty := teLevelQty lvl } }
    | [] =>
      { b with bbo := { b.bbo with ask := Price_INVALID, ask_qty := Qty_INVALID } }
  else b

/-- The bid_is_updated flag computed at the top of on_market_update,
    BEFORE the book is mutated. -/
def bidIsUpdated (b : TEOrderBook) (u : OMEMarketUpdate) : Bool :=
  match b.bids_by_price with
  | [] => false
  | lvl :: _ => u.side = Side.BUY && decide (u.price ≥ lvl.price)

/-- The ask_is_updated flag computed at the top of on_market_update,
    BEFORE the book is mutated. -/
def askIsUpdated (b : TEOrderBook) (u : OMEMarketUpdate) : Bool :=
  match b.asks_by_price with
  | [] => false
  | lvl :: _ => u.side = Side.SELL && decide (u.price ≤ lvl.price)

/-- TEOrderBook::on_market_update.  TRADE returns before update_bbo; a
    MODIFY or CANCEL whose order_id has no live order dereferences a
    null table entry (none models that crash); every other case falls
    through to update_bbo with the flags computed before the mutation. -/
def TEOrderBook.on_market_update (b : TEOrderBook) (u : OMEMarketUpdate) :
    Option TEOrderBook :=
  let bid_is_updated := bidIsUpdated b u
  let ask_is_updated := askIsUpdated b u
  match u.type with
  | UpdType.ADD =>
    let o : TEOrder := { id := u.order_id, side := u.side, price := u.price,
                         qty := u.qty, priority := u.priority }
    some ((b.add_order o).update_bbo bid_is_updated ask_is_updated)
  | UpdType.MODIFY =>
    match b.lookupOrder u.order_id with
    | none => none
    | some _ =>
      some (({ b with
        bids_by_price := teSetQty u.order_id u.qty b.bids_by_price,
        asks_by_price := teSetQty u.order_id u.qty b.asks_by_price
        }).update_bbo bid_is_updated ask_is_updated)
  | UpdType.CANCEL =>
    match b.lookupOrder u.order_id with
    | none => none
    | some o => some ((b.remove_order o).update_bbo bid_is_updated ask_is_updated)
  | UpdType.TRADE => some b
  | UpdType.CLEAR =>
    some (({ b with bids_by_price := [], asks_by_price := [] }).update_bbo
      bid_is_updated ask_is_updated)
  | _ => some (b.update_bbo bid_is_updated ask_is_updated)

/- ------------------------------------------------------------------ -/
/- Well-formedness predicates used by the invariant claims. -/
/- ------------------------------------------------------------------ -/

/-- Invariant of a reachable MemPool state: the cursor is in range and
    points at a free block. -/
def PoolInv (p : MemPool) : Prop :=
  p.i_next_free < p.blocks.length ∧ p.blocks.getD p.i_next_free false = true

/-- A well-formed price level of side s: the level carries that side, a
    nonempty FIFO, a price inside the direct-address range (the
    collision-free regime of spec sections 3 and 9), and every order in
    it carries the level's side and price. -/
def sideOk (s : Side) (lvl : OMEOrdersAtPrice) : Prop :=
  lvl.side = s ∧ lvl.orders ≠ [] ∧ 0 ≤ lvl.price ∧
    lvl.price < (MAX_PRICE_LEVELS : Int) ∧
    ∀ o ∈ lvl.orders, o.side = s ∧ o.price = lvl.price

/-- Well-formedness of the exchange book: sides hold well-formed levels,
    bid levels strictly decrease in price from the head, ask levels
    strictly increase, and the book is not crossed (INV-1 and INV-3). -/
def BookWF (b : OMEOrderBook) : Prop :=
  (∀ l ∈ b.bids_by_price, sideOk Side.BUY l) ∧
  (∀ l ∈ b.asks_by_price, sideOk Side.SELL l) ∧
  List.Chain' (fun x y : OMEOrdersAtPrice => y.price < x.price) b.bids_by_price ∧
  List.Chain' (fun x y : OMEOrdersAtPrice => x.price < y.price) b.asks_by_price ∧
  (∀ lb ∈ b.bids_by_price.head?, ∀ la ∈ b.asks_by_price.head?, lb.price < la.price)

/-- A book operation whose arguments stay in the regime the data model
    prescribes: a real side and a price inside the collision-free
    direct-address range. -/
def validOp : BookOp → Prop
  | BookOp.add _ _ _ side price _ =>
    (side = Side.BUY ∨ side = Side.SELL) ∧ 0 ≤ price ∧ price < (MAX_PRICE_LEVELS : Int)
  | BookOp.cancel _ _ _ => True

/-- The best bid is strictly below the best ask (the INV-3 statement,
    trivially true when either side is empty). -/
def notCrossed (b : OMEOrderBook) : Prop :=
  ∀ lb ∈ b.bids_by_price.head?, ∀ la ∈ b.asks_by_price.head?, lb.price < la.price

/-- The bid side of the BBO agrees with the bid head level: price and
    accumulated qty of the best level when the side is non-empty,
    INVALID otherwise. -/
def bboBidOk (b : TEOrderBook) : Prop :=
  match b.bids_by_price with
  | [] => b.bbo.bid = Price_INVALID ∧ b.bbo.bid_qty = Qty_INVALID
  | lvl :: _ => b.bbo.bid = lvl.price ∧ b.bbo.bid_qty = teLevelQty lvl

/-- The ask side of the BBO agrees with the ask head level. -/
def bboAskOk (b : TEOrderBook) : Prop :=
  match b.asks_by_price with
  | [] => b.bbo.ask = Price_INVALID ∧ b.bbo.ask_qty = Qty_INVALID
  | lvl :: _ => b.bbo.ask = lvl.price ∧ b.bbo.ask_qty = teLevelQty lvl

/-- Every level of a level list holds at least one order (order_0 is
    never null in a reachable book). -/
def levelsNonempty (ls : List OMEOrdersAtPrice) : Prop :=
  ∀ l ∈ ls, l.orders ≠ []

/- ------------------------------------------------------------------ -/
/- Helper lemmas: position accounting. -/
/- ------------------------------------------------------------------ -/

/-- The net position moves by qty in the fill side's direction. -/
theorem add_fill_position (p : Position) (side : Side) (price : Int) (qty : Nat) :
    (p.add_fill side price qty).position = p.position + (qty : Int) * side_to_value side := by
  unfold Position.add_fill
  cases side <;>
    simp only [Position.setVwap, oppositeSide, side_to_value] <;>
    split_ifs <;>
    simp [Position.setVwap]

/-- The sign-flip rule of add_fill: when the fill flips the position's
    sign, vwap_open on the fill side becomes price times the new
    absolute position and the opposite side is zeroed. -/
theorem add_fill_flip (p : Position) (side : Side) (price : Int) (qty : Nat)
    (hs : side = Side.BUY ∨ side = Side.SELL)
    (hflip : (p.add_fill side price qty).position * p.position < 0) :
    (p.add_fill side price qty).vwap_open side =
      (price : Rat) * (((p.add_fill side price qty).position.natAbs : Nat) : Rat) ∧
    (p.add_fill side price qty).vwap_open (oppositeSide side) = 0 := by
  have hpos := add_fill_position p side price qty
  rw [hpos] at hflip
  rw [hpos]
  rcases hs with h | h <;> subst h
  · simp only [side_to_value, mul_one] at hflip ⊢
    unfold Position.add_fill
    simp only [side_to_value, oppositeSide, Position.setVwap, Position.vwap_open, mul_one]
    split_ifs with hA hB hC hD <;> simp_all <;> nlinarith [hflip]
  · simp only [side_to_value, mul_neg_one] at hflip ⊢
    unfold Position.add_fill
    simp only [side_to_value, oppositeSide, Position.setVwap, Position.vwap_open, mul_neg_one]
    split_ifs with hA hB hC hD <;> simp_all <;> nlinarith [hflip]

/- ------------------------------------------------------------------ -/
/- Helper lemmas: memory pool. -/
/- ------------------------------------------------------------------ -/

/-- Setting a free block busy lowers the free count by one. -/
theorem countP_set_false (l : List Bool) (i : Nat) (hi : i < l.length)
    (ht : l.getD i false = true) :
    (l.set i false).countP (fun b => b) + 1 = l.countP (fun b => b) := by
  induction l generalizing i with
  | nil => simp at hi
  | cons a l ih =>
    cases i with
    | zero =>
      simp only [List.getD_cons_zero] at ht
      simp [List.set, List.countP_cons, ht]
    | succ i =>
      simp only [List.getD_cons_succ] at ht
      simp only [List.length_cons, Nat.succ_lt_succ_iff] at hi
      simp only [List.set, List.countP_cons]
      have := ih i hi ht
      omega

/-- Setting a busy block free raises the free count by one. -/
theorem countP_set_true (l : List Bool) (i : Nat) (hi : i < l.length)
    (hf : l.getD i false = false) :
    (l.set i true).countP (fun b => b) = l.countP (fun b => b) + 1 := by
  induction l generalizing i with
  | nil => simp at hi
  | cons a l ih =>
    cases i with
    | zero =>
      simp only [List.getD_cons_zero] at hf
      simp [List.set, List.countP_cons, hf]
    | succ i =>
      simp only [List.getD_cons_succ] at hf
      simp only [List.length_cons, Nat.succ_lt_succ_iff] at hi
      simp only [List.set, List.countP_cons]
      have := ih i hi hf
      omega

/-- With every block busy the scan never yields a slot. -/
theorem scanNextFree_none_of_all_busy (blocks : List Bool) (i : Nat)
    (hall : ∀ k, k < blocks.length → blocks.getD k false = false) :
    ∀ f j, scanNextFree blocks i j f = none := by
  intro f
  induction f with
  | zero => intro j; rfl
  | succ f ih =>
    intro j
    unfold scanNextFree
    have hj : blocks.getD j false = false := by
      by_cases h : j < blocks.length
      · exact hall j h
      · exact List.getD_eq_default _ _ (le_of_not_lt h)
    rw [hj]
    simp only [Bool.false_eq_true, if_false]
    split <;> (split <;> first | rfl | exact ih _)

/-- If a free block lies d steps ahead of the scan position, with the
    start index nowhere strictly inside that arc, the scan finds a free
    slot. -/
theorem scanNextFree_finds (blocks : List Bool) (i : Nat) :
    ∀ d f j, d < f → j < blocks.length →
      blocks.getD ((j + d) % blocks.length) false = true →
      (∀ m, 1 ≤ m → m ≤ d → (j + m) % blocks.length ≠ i) →
      ∃ r, scanNextFree blocks i j f = some r ∧
        blocks.getD r false = true ∧ r < blocks.length := by
  intro d
  induction d with
  | zero =>
    intro f j hf hj hfree _
    match f, hf with
    | f + 1, _ =>
      unfold scanNextFree
      rw [Nat.add_zero, Nat.mod_eq_of_lt hj] at hfree
      rw [hfree]
      exact ⟨j, by simp, hfree, hj⟩
  | succ d ih =>
    intro f j hf hj hfree hno
    match f, hf with
    | f + 1, hf =>
      unfold scanNextFree
      by_cases hjf : blocks.getD j false = true
      · rw [hjf]; exact ⟨j, by simp, hjf, hj⟩
      · rw [Bool.not_eq_true] at hjf
        rw [hjf]
        simp only [Bool.false_eq_true, if_false]
        have hj1 : (if j + 1 = blocks.length then 0 else j + 1) = (j + 1) % blocks.length := by
          split
          · next h => rw [h, Nat.mod_self]
          · next h => exact (Nat.mod_eq_of_lt (by omega)).symm
        rw [hj1]
        have hne : (j + 1) % blocks.length ≠ i := by
          have := hno 1 (le_refl _) (by omega)
          simpa using this
        rw [if_neg hne]
        have hj1lt : (j + 1) % blocks.length < blocks.length := Nat.mod_lt _ (by omega)
        have hfree' : blocks.getD (((j + 1) % blocks.length + d) % blocks.length) false
            = true := by
          rw [Nat.mod_add_mod]
          have he : j + 1 + d = j + (d + 1) := by omega
          rw [he]
          exact hfree
        have hno' : ∀ m, 1 ≤ m → m ≤ d →
            ((j + 1) % blocks.length + m) % blocks.length ≠ i := by
          intro m h1 h2
          rw [Nat.mod_add_mod]
          have he : j + 1 + m = j + (m + 1) := by omega
          rw [he]
          exact hno (m + 1) (by omega) (by omega)
        exact ih f ((j + 1) % blocks.length) (by omega) hj1lt hfree' hno'

/-- A positive free count produces a free index. -/
theorem exists_free_index (l : List Bool) (h : 0 < l.countP (fun b => b)) :
    ∃ k, k < l.length ∧ l.getD k false = true := by
  rw [List.countP_pos_iff] at h
  obtain ⟨a, ha, hpa⟩ := h
  obtain ⟨k, hk, hget⟩ := List.mem_iff_getElem.mp ha
  refine ⟨k, hk, ?_⟩
  rw [List.getD_eq_getElem?_getD, List.getElem?_eq_getElem hk]
  simp only [Option.getD_some, hget]
  simpa using hpa

/-- Wrap-around distance: starting at i, walking (k + n - i) mod n steps
    lands on k. -/
theorem mod_wrap_dist (n i k : Nat) (hi : i < n) (hk : k < n) :
    (i + (k + n - i) % n) % n = k := by
  rw [Nat.add_mod_mod]
  have he : i + (k + n - i) = k + n := by omega
  rw [he, Nat.add_mod_right, Nat.mod_eq_of_lt hk]

/-- Walking fewer than n steps from i cannot return to i. -/
theorem mod_step_ne_self (n i m : Nat) (hi : i < n) (h1 : 1 ≤ m) (hm : m < n) :
    (i + m) % n ≠ i := by
  intro heq
  have hmod : (i + m) % n = i % n := by rw [heq, Nat.mod_eq_of_lt hi]
  have hdvd : n ∣ m := by
    have := (Nat.modEq_iff_dvd' (Nat.le_add_right i m)).mp hmod.symm
    simpa using this
  have := Nat.eq_zero_of_dvd_of_lt hdvd hm
  omega

/-- With at least one free block the cursor update succeeds and lands on
    a free block. -/
theorem update_next_free_some (blocks : List Bool) (i : Nat)
    (hi : i < blocks.length) (hfree : 0 < blocks.countP (fun b => b)) :
    ∃ r, update_next_free_index blocks i = some r ∧
      blocks.getD r false = true ∧ r < blocks.length := by
  obtain ⟨k, hk, hkfree⟩ := exists_free_index blocks hfree
  have hn : 0 < blocks.length := by omega
  have hdlt : (k + blocks.length - i) % blocks.length < blocks.length := Nat.mod_lt _ hn
  have hid : (i + (k + blocks.length - i) % blocks.length) % blocks.length = k :=
    mod_wrap_dist blocks.length i k hi hk
  unfold update_next_free_index
  exact scanNextFree_finds blocks i ((k + blocks.length - i) % blocks.length)
    blocks.length i hdlt hi (by rw [hid]; exact hkfree)
    (fun m h1 h2 => mod_step_ne_self blocks.length i m hi h1 (by omega))

/-- With two or more free blocks, allocation succeeds and preserves the
    pool invariant. -/
theorem allocate_ok (p : MemPool) (hInv : PoolInv p) (h2 : 2 ≤ p.freeCount) :
    ∃ q, p.allocate = Except.ok q ∧ PoolInv q ∧
      q.blocks.length = p.blocks.length ∧ q.freeCount + 1 = p.freeCount := by
  obtain ⟨hi, hfree⟩ := hInv
  unfold MemPool.allocate
  rw [hfree]
  simp only [Bool.true_eq_false, if_false]
  have hcnt : (p.blocks.set p.i_next_free false).countP (fun b => b) + 1 =
      p.blocks.countP (fun b => b) := countP_set_false _ _ hi hfree
  have hfc : 0 < (p.blocks.set p.i_next_free false).countP (fun b => b) := by
    unfold MemPool.freeCount at h2
    omega
  have hi' : p.i_next_free < (p.blocks.set p.i_next_free false).length := by
    rw [List.length_set]; exact hi
  obtain ⟨r, hr, hrfree, hrlt⟩ :=
    update_next_free_some (p.blocks.set p.i_next_free false) p.i_next_free hi' hfc
  rw [hr]
  refine ⟨_, rfl, ⟨hrlt, hrfree⟩, ?_, ?_⟩
  · simp
  · unfold MemPool.freeCount
    simpa using hcnt

/-- The allocation that takes the last free block is the fatal pool
    overrun: the scan wraps with nothing free. -/
theorem allocate_overrun (p : MemPool) (hInv : PoolInv p) (h1 : p.freeCount = 1) :
    p.allocate = Except.error PoolFatal.overrun := by
  obtain ⟨hi, hfree⟩ := hInv
  unfold MemPool.allocate
  rw [hfree]
  simp only [Bool.true_eq_false, if_false]
  have hcnt : (p.blocks.set p.i_next_free false).countP (fun b => b) + 1 =
      p.blocks.countP (fun b => b) := countP_set_false _ _ hi hfree
  have hzero : (p.blocks.set p.i_next_free false).countP (fun b => b) = 0 := by
    unfold MemPool.freeCount at h1
    omega
  have hall : ∀ k, k < (p.blocks.set p.i_next_free false).length →
      (p.blocks.set p.i_next_free false).getD k false = false := by
    intro k hk
    by_contra hne
    have htrue : (p.blocks.set p.i_next_free false).getD k false = true := by
      cases h : (p.blocks.set p.i_next_free false).getD k false
      · exact absurd h hne
      · rfl
    have hmem : true ∈ p.blocks.set p.i_next_free false := by
      rw [List.getD_eq_getElem?_getD] at htrue
      cases hg : (p.blocks.set p.i_next_free false)[k]? with
      | none => rw [hg] at htrue; simp at htrue
      | some b =>
        rw [hg] at htrue
        simp only [Option.getD_some] at htrue
        subst htrue
        exact List.getElem?_mem hg
    have : 0 < (p.blocks.set p.i_next_free false).countP (fun b => b) :=
      List.countP_pos_iff.mpr ⟨true, hmem, rfl⟩
    omega
  unfold update_next_free_index
  rw [scanNextFree_none_of_all_busy _ _ hall _ _]

/-- Deallocating a live block succeeds and preserves the invariant. -/
theorem deallocate_ok (p : MemPool) (j : Nat) (hInv : PoolInv p)
    (hj : j < p.blocks.length) (hbusy : p.blocks.getD j false = false) :
    ∃ q, p.deallocate j = Except.ok q ∧ PoolInv q ∧
      q.blocks.length = p.blocks.length ∧ q.freeCount = p.freeCount + 1 := by
  obtain ⟨hi, hfree⟩ := hInv
  unfold MemPool.deallocate
  rw [if_pos hj, hbusy]
  simp only [Bool.false_eq_true, if_false]
  have hji : j ≠ p.i_next_free := by
    intro h
    rw [h, hfree] at hbusy
    exact absurd hbusy (by simp)
  refine ⟨_, rfl, ⟨?_, ?_⟩, ?_, ?_⟩
  · simpa using hi
  · have hsame : (p.blocks.set j true).getD p.i_next_free false =
        p.blocks.getD p.i_next_free false := by
      rw [List.getD_eq_getElem?_getD, List.getD_eq_getElem?_getD,
        List.getElem?_set_ne (by omega)]
    rw [hsame]; exact hfree
  · simp
  · unfold MemPool.freeCount
    simpa using countP_set_true _ _ hj hbusy

/-- A safe trace runs to completion from any invariant state. -/
theorem runPool_ok (ops : List PoolOp) : ∀ p, PoolInv p → safeRun p ops = true →
    ∃ q, runPool p ops = Except.ok q ∧ PoolInv q := by
  induction ops with
  | nil => exact fun p h _ => ⟨p, rfl, h⟩
  | cons op ops ih =>
    intro p hInv hsafe
    unfold safeRun at hsafe
    simp only [Bool.and_eq_true] at hsafe
    obtain ⟨hpre, hrest⟩ := hsafe
    cases op with
    | alloc =>
      simp only [decide_eq_true_eq] at hpre
      obtain ⟨q, hq, hqInv, _, _⟩ := allocate_ok p hInv hpre
      unfold runPool
      simp only [stepPool] at hrest ⊢
      rw [hq] at hrest ⊢
      exact ih q hqInv hrest
    | dealloc j =>
      simp only [Bool.and_eq_true, decide_eq_true_eq, Bool.not_eq_true'] at hpre
      obtain ⟨hj, hbusy⟩ := hpre
      obtain ⟨q, hq, hqInv, _, _⟩ := deallocate_ok p j hInv hj hbusy
      unfold runPool
      simp only [stepPool] at hrest ⊢
      rw [hq] at hrest ⊢
      exact ih q hqInv hrest

/-- A freshly built pool of at least one block satisfies the invariant. -/
theorem poolInv_mk0 (n : Nat) (h : 1 ≤ n) : PoolInv (MemPool.mk0 n) := by
  constructor
  · simpa [MemPool.mk0] using h
  · have h0 : 0 < n := h
    simp [MemPool.mk0, List.getD_eq_getElem?_getD, List.getElem?_replicate, h0]

/- ------------------------------------------------------------------ -/
/- Claims. -/
/- ------------------------------------------------------------------ -/

/-- C4: from a flat Position, the fills BUY 10@100, BUY 10@90,
    SELL 10@92, SELL 20@97 yield position = -10, vwap_open[BUY] = 0,
    realized = -10, unrealized = 0, total = -10; and in general a fill
    that flips the position's sign sets vwap_open on the fill's side to
    price times the absolute new position and zeroes the opposite
    side. -/
theorem claim_C4_pnl_sign_flip :
    ((let p := (((Position.flat.add_fill Side.BUY 100 10).add_fill Side.BUY 90 10).add_fill
        Side.SELL 92 10).add_fill Side.SELL 97 20
      p.position = -10 ∧ p.vwap_open Side.BUY = 0 ∧ p.pnl_real = -10 ∧
        p.pnl_unreal = 0 ∧ p.pnl_total = -10)) ∧
    (∀ (p : Position) (side : Side) (price : Int) (qty : Nat),
      side = Side.BUY ∨ side = Side.SELL →
      (p.add_fill side price qty).position * p.position < 0 →
      (p.add_fill side price qty).vwap_open side =
        (price : Rat) * (((p.add_fill side price qty).position.natAbs : Nat) : Rat) ∧
      (p.add_fill side price qty).vwap_open (oppositeSide side) = 0) := by
  constructor
  · norm_num [Position.flat, Position.add_fill, Position.vwap_open, Position.setVwap,
      oppositeSide, side_to_value]
  · exact add_fill_flip

/-- Witness for C4: the sign-flip clause applied to the fourth S6 fill
    (SELL 20@97 on a position of +10). -/
theorem claim_C4_witness :
    ((((Position.flat.add_fill Side.BUY 100 10).add_fill Side.BUY 90 10).add_fill
        Side.SELL 92 10).add_fill Side.SELL 97 20).vwap_open Side.SELL =
      (97 : Rat) * ((((((Position.flat.add_fill Side.BUY 100 10).add_fill Side.BUY 90
        10).add_fill Side.SELL 92 10).add_fill Side.SELL 97 20).position.natAbs : Nat) : Rat) ∧
    ((((Position.flat.add_fill Side.BUY 100 10).add_fill Side.BUY 90 10).add_fill
        Side.SELL 92 10).add_fill Side.SELL 97 20).vwap_open (oppositeSide Side.SELL) = 0 :=
  claim_C4_pnl_sign_flip.2 _ Side.SELL 97 20 (Or.inr rfl)
    (by norm_num [Position.flat, Position.add_fill, Position.setVwap,
      oppositeSide, side_to_value])

/-- C6 (code bug): with a fresh OrderManager, prices valid, and the risk
    check ALLOWED, manage_orders sends a NEW request per side but the
    tracked order stays INVALID instead of PENDING_NEW (manage_orders
    copies the tracked OMOrder instead of taking a reference), so an
    identical second call sends two further NEW requests instead of
    none. -/
theorem claim_C6_manage_orders_copy_bug :
    ((manage_orders OrderManager.mk0 7
      { size_max := 100, position_max := 100, loss_max := -100 }
      { position := 0, pnl_total := 0 } 4 10 20 5).2.map (fun r => r.type)
      = [ReqType.NEW, ReqType.NEW]) ∧
    (((manage_orders OrderManager.mk0 7
      { size_max := 100, position_max := 100, loss_max := -100 }
      { position := 0, pnl_total := 0 } 4 10 20 5).1.ticker_to_order_by_side 4 Side.BUY).state
      = OMState.INVALID) ∧
    (((manage_orders OrderManager.mk0 7
      { size_max := 100, position_max := 100, loss_max := -100 }
      { position := 0, pnl_total := 0 } 4 10 20 5).1.ticker_to_order_by_side 4 Side.SELL).state
      = OMState.INVALID) ∧
    ((manage_orders (manage_orders OrderManager.mk0 7
      { size_max := 100, position_max := 100, loss_max := -100 }
      { position := 0, pnl_total := 0 } 4 10 20 5).1 7
      { size_max := 100, position_max := 100, loss_max := -100 }
      { position := 0, pnl_total := 0 } 4 10 20 5).2.map (fun r => r.type)
      = [ReqType.NEW, ReqType.NEW]) :=
  ⟨rfl, rfl, rfl, rfl⟩

/-- C7 counterexample: a cancel whose order_id is outside the
    direct-address table (no live order can exist there) aborts the
    process through std::array::at in a noexcept member instead of
    emitting a CANCEL_REJECTED response. -/
theorem claim_C7_counterexample :
    OMEOrderBook.mk0.cancel 0 (1024 * 1024) 0 = Except.error BookCrash.mapOutOfRange := by
  rfl

/-- C7 amended: for every cancel with order_id inside the table whose
    lookup holds no live order (the client is out of range or the table
    entry is empty), exactly one CANCEL_REJECTED response with
    market_order_id INVALID is emitted, no market update is emitted, and
    the book is unchanged. -/
theorem claim_C7_cancel_reject (b : OMEOrderBook) (client_id order_id ticker_id : Nat)
    (ho : order_id < MAX_ORDER_IDS)
    (hdead : (¬ client_id < MAX_N_CLIENTS) ∨ b.lookupClientOrder client_id order_id = none) :
    b.cancel client_id order_id ticker_id = Except.ok (b,
      { type := RespType.CANCEL_REJECTED, client_id := client_id, ticker_id := ticker_id,
        client_order_id := order_id, market_order_id := OrderID_INVALID,
        side := Side.INVALID, price := Price_INVALID, qty_exec := Qty_INVALID,
        qty_remain := Qty_INVALID }, []) := by
  unfold OMEOrderBook.cancel
  rcases hdead with h | h
  · rw [if_neg h]
  · by_cases hc : client_id < MAX_N_CLIENTS
    · rw [if_pos hc, if_pos ho, h]
    · rw [if_neg hc]

/-- Witness for C7: cancelling the never-used order id 42 on the empty
    book. -/
theorem claim_C7_witness :
    OMEOrderBook.mk0.cancel 0 42 0 = Except.ok (OMEOrderBook.mk0,
      { type := RespType.CANCEL_REJECTED, client_id := 0, ticker_id := 0,
        client_order_id := 42, market_order_id := OrderID_INVALID,
        side := Side.INVALID, price := Price_INVALID, qty_exec := Qty_INVALID,
        qty_remain := Qty_INVALID }, []) :=
  claim_C7_cancel_reject OMEOrderBook.mk0 0 42 0 (by norm_num [MAX_ORDER_IDS])
    (Or.inr rfl)

/-- C8: one sequence_and_publish writes exactly the pending requests as
    a permutation ordered by nondecreasing t_rx, resets the pending
    count to zero, and an immediately following call writes nothing. -/
theorem claim_C8_fifo_sequencer (s : FIFOSequencer) :
    (s.sequence_and_publish).1 = (sortPending s.pending_requests).map (fun r => r.request) ∧
    (sortPending s.pending_requests).Perm s.pending_requests ∧
    List.Pairwise (fun a b : PendingClientRequest => a.t_rx ≤ b.t_rx)
      (sortPending s.pending_requests) ∧
    (s.sequence_and_publish).2.pending_requests = [] ∧
    ((s.sequence_and_publish).2.sequence_and_publish).1 = [] := by
  refine ⟨?_, ?_, ?_, ?_, ?_⟩
  · unfold FIFOSequencer.sequence_and_publish
    split
    · next hlen =>
      have hempty : s.pending_requests = [] := List.length_eq_zero.mp hlen
      simp [sortPending, hempty]
    · rfl
  · exact List.mergeSort_perm _ _
  · have hsorted := @List.sorted_mergeSort PendingClientRequest
      (fun a b : PendingClientRequest => decide (a.t_rx ≤ b.t_rx))
      (fun a b c hab hbc => by
        simp only [decide_eq_true_eq] at *
        exact le_trans hab hbc)
      (fun a b => by
        simp only [Bool.or_eq_true, decide_eq_true_eq]
        exact le_total a.t_rx b.t_rx)
      s.pending_requests
    exact hsorted.imp (fun h => of_decide_eq_true h)
  · unfold FIFOSequencer.sequence_and_publish
    split <;> first | (next hlen => exact List.length_eq_zero.mp hlen) | rfl
  · unfold FIFOSequencer.sequence_and_publish
    split
    · next hlen => simp [FIFOSequencer.sequence_and_publish, List.length_eq_zero.mp hlen]
    · rfl

/-- C9 counterexample: a pool of capacity 1 with a single allocation
    never holds more than 1 live object, yet the allocation hits the
    fatal pool-overrun ASSERT (the repository's own test
    mempool_asserts_before_overrun pins this behavior). -/
theorem claim_C9_counterexample :
    NeverExceeds 1 [PoolOp.alloc] ∧
    runPool (MemPool.mk0 1) [PoolOp.alloc] = Except.error PoolFatal.overrun := by
  constructor
  · intro k hk
    simp only [List.length_cons, List.length_nil] at hk
    interval_cases k <;> simp [opsLive]
  · rfl

/-- C9 amended: a trace in which every allocation happens with at least
    two free blocks (so the pool never becomes completely busy, keeping
    the live count strictly below n) and every deallocation targets a
    live block completes without any fatal ASSERT; and from any
    reachable state the allocation that would take the last free block
    is itself the fatal overrun: the scan wraps back with no free
    slot. -/
theorem claim_C9_pool_safety :
    (∀ (n : Nat) (ops : List PoolOp), 1 ≤ n → safeRun (MemPool.mk0 n) ops = true →
      ∃ q, runPool (MemPool.mk0 n) ops = Except.ok q) ∧
    (∀ p : MemPool, PoolInv p → p.freeCount = 1 →
      p.allocate = Except.error PoolFatal.overrun) := by
  constructor
  · intro n ops h1 hsafe
    obtain ⟨q, hq, _⟩ := runPool_ok ops (MemPool.mk0 n) (poolInv_mk0 n h1) hsafe
    exact ⟨q, hq⟩
  · exact allocate_overrun

/-- Witness for C9: a pool of two blocks runs allocate, deallocate,
    allocate to completion. -/
theorem claim_C9_witness :
    ∃ q, runPool (MemPool.mk0 2) [PoolOp.alloc, PoolOp.dealloc 0, PoolOp.alloc]
      = Except.ok q :=
  claim_C9_pool_safety.1 2 [PoolOp.alloc, PoolOp.dealloc 0, PoolOp.alloc]
    (by norm_num) (by rfl)

/- ------------------------------------------------------------------ -/
/- Helper lemmas: replica book BBO. -/
/- ------------------------------------------------------------------ -/

/-- update_bbo only rewrites the BBO, never the level lists. -/
theorem update_bbo_levels (b : TEOrderBook) (fb fa : Bool) :
    (b.update_bbo fb fa).bids_by_price = b.bids_by_price ∧
    (b.update_bbo fb fa).asks_by_price = b.asks_by_price := by
  unfold TEOrderBook.update_bbo
  cases fb <;> cases fa <;> cases hb : b.bids_by_price <;> cases ha : b.asks_by_price <;>
    simp [hb, ha]

/-- A flagged bid recompute leaves the BBO's bid side agreeing with the
    bid head level. -/
theorem update_bbo_bid_ok (b : TEOrderBook) (fa : Bool) :
    bboBidOk (b.update_bbo true fa) := by
  unfold TEOrderBook.update_bbo bboBidOk
  cases fa <;> cases hb : b.bids_by_price <;> cases ha : b.asks_by_price <;>
    simp [hb, ha, teLevelQty]

/-- A flagged ask recompute leaves the BBO's ask side agreeing with the
    ask head level. -/
theorem update_bbo_ask_ok (b : TEOrderBook) (fb : Bool) :
    bboAskOk (b.update_bbo fb true) := by
  unfold TEOrderBook.update_bbo bboAskOk
  cases fb <;> cases hb : b.bids_by_price <;> cases ha : b.asks_by_price <;>
    simp [hb, ha, teLevelQty]

/-- With both flags false, update_bbo is the identity. -/
theorem update_bbo_false_false (b : TEOrderBook) :
    b.update_bbo false false = b := by
  unfold TEOrderBook.update_bbo
  simp

/-- Flag-conditional BBO correctness of update_bbo. -/
theorem update_bbo_flags (bk : TEOrderBook) (fb fa : Bool) :
    (fb = true → bboBidOk (bk.update_bbo fb fa)) ∧
    (fa = true → bboAskOk (bk.update_bbo fb fa)) := by
  constructor
  · intro h; subst h; exact update_bbo_bid_ok _ _
  · intro h; subst h; exact update_bbo_ask_ok _ _

/-- Every completed non-TRADE update recomputes exactly the flagged
    sides of the BBO, which then agree with the resulting head levels. -/
theorem on_market_update_flags (b : TEOrderBook) (u : OMEMarketUpdate)
    (b2 : TEOrderBook) (hne : u.type ≠ UpdType.TRADE)
    (h : b.on_market_update u = some b2) :
    (bidIsUpdated b u = true → bboBidOk b2) ∧
    (askIsUpdated b u = true → bboAskOk b2) := by
  have key : ∀ bk : TEOrderBook,
      b2 = bk.update_bbo (bidIsUpdated b u) (askIsUpdated b u) →
      (bidIsUpdated b u = true → bboBidOk b2) ∧
      (askIsUpdated b u = true → bboAskOk b2) := by
    intro bk hb2
    rw [hb2]
    exact update_bbo_flags bk _ _
  unfold TEOrderBook.on_market_update at h
  cases htype : u.type <;> rw [htype] at h <;> simp only [] at h
  case TRADE => exact absurd htype hne
  case ADD => exact key _ (by injection h with h; exact h.symm)
  case CLEAR => exact key _ (by injection h with h; exact h.symm)
  case INVALID => exact key _ (by injection h with h; exact h.symm)
  case SNAPSHOT_START => exact key _ (by injection h with h; exact h.symm)
  case SNAPSHOT_END => exact key _ (by injection h with h; exact h.symm)
  case MODIFY =>
    cases hl : b.lookupOrder u.order_id <;> rw [hl] at h
    · exact absurd h (by simp)
    · exact key _ (by injection h with h; exact h.symm)
  case CANCEL =>
    cases hl : b.lookupOrder u.order_id <;> rw [hl] at h
    · exact absurd h (by simp)
    · exact key _ (by injection h with h; exact h.symm)

/-- add_order never touches the BBO. -/
theorem add_order_bbo (b : TEOrderBook) (o : TEOrder) :
    (b.add_order o).bbo = b.bbo := by
  unfold TEOrderBook.add_order
  cases h : b.get_level_for_price o.price <;> simp [h] <;> split <;> rfl

/-- An ADD for which neither flag fired leaves the BBO untouched: in
    particular an ADD into a previously empty side. -/
theorem on_market_update_add_no_flags (b : TEOrderBook) (u : OMEMarketUpdate)
    (htype : u.type = UpdType.ADD)
    (hfb : bidIsUpdated b u = false) (hfa : askIsUpdated b u = false) :
    (b.on_market_update u).map (fun b2 => b2.bbo) = some b.bbo := by
  unfold TEOrderBook.on_market_update
  rw [htype, hfb, hfa]
  simp [update_bbo_false_false, add_order_bbo]

/-- C5 counterexample: an ADD of a BUY order into a previously empty
    book leaves the bid side non-empty with head summary (100, 50), yet
    the BBO bid stays INVALID, because bid_is_updated is computed before
    the mutation and is false while the side is empty; the claim says
    this BBO should equal the added order's price and qty. -/
theorem claim_C5_counterexample :
    (TEOrderBook.mk0.on_market_update
      { type := UpdType.ADD, order_id := 0, ticker_id := 3, side := Side.BUY,
        price := 100, qty := 50, priority := 1 }).map
      (fun b => (b.bbo.bid, b.bids_by_price.map (fun l => (l.price, teLevelQty l))))
      = some (Price_INVALID, [(100, 50)]) ∧ Price_INVALID ≠ (100 : Int) := by
  constructor
  · rfl
  · decide

/-- C5 amended: the replica recomputes a side of the BBO only when that
    side's flag, computed BEFORE the mutation, fired (which requires the
    side to have been non-empty); every recomputed side then equals
    (head level price, sum of qty at the head level) or is INVALID when
    the side emptied; an ADD with neither flag fired (in particular into
    a previously empty side) leaves the BBO unchanged; and the S4 book
    of five resting asks at alternating prices 105 and 55 (qty 50 each)
    ends with BBO ask price 55 and qty 100. -/
theorem claim_C5_bbo_recompute :
    (∀ (b : TEOrderBook) (u : OMEMarketUpdate) (b2 : TEOrderBook),
      u.type ≠ UpdType.TRADE → b.on_market_update u = some b2 →
      (bidIsUpdated b u = true → bboBidOk b2) ∧
      (askIsUpdated b u = true → bboAskOk b2)) ∧
    (∀ (b : TEOrderBook) (u : OMEMarketUpdate),
      u.type = UpdType.ADD → bidIsUpdated b u = false → askIsUpdated b u = false →
      (b.on_market_update u).map (fun b2 => b2.bbo) = some b.bbo) ∧
    ((List.foldlM (fun (b : TEOrderBook) (u : OMEMarketUpdate) => b.on_market_update u)
      TEOrderBook.mk0
      [{ type := UpdType.ADD, order_id := 5, ticker_id := 3, side := Side.SELL,
         price := 105, qty := 50, priority := 0 },
       { type := UpdType.ADD, order_id := 6, ticker_id := 3, side := Side.SELL,
         price := 55, qty := 50, priority := 1 },
       { type := UpdType.ADD, order_id := 7, ticker_id := 3, side := Side.SELL,
         price := 105, qty := 50, priority := 2 },
       { type := UpdType.ADD, order_id := 8, ticker_id := 3, side := Side.SELL,
         price := 55, qty := 50, priority := 3 },
       { type := UpdType.ADD, order_id := 9, ticker_id := 3, side := Side.SELL,
         price := 105, qty := 50, priority := 4 }]).map
      (fun b => (b.bbo.ask, b.bbo.ask_qty)) = some (55, 100)) :=
  ⟨on_market_update_flags, on_market_update_add_no_flags, by rfl⟩

/-- Witness for C5: the flag clause applied to the ADD of an ask at 55
    into a book whose best ask is 105. -/
theorem claim_C5_witness :
    bboAskOk ((TEOrderBook.on_market_update
      { bids_by_price := [],
        asks_by_price := [{ side := Side.SELL, price := 105,
                            orders := [{ id := 5, side := Side.SELL, price := 105,
                                         qty := 50, priority := 0 }] }],
        bbo := BBO.mk0 }
      { type := UpdType.ADD, order_id := 6, ticker_id := 3, side := Side.SELL,
        price := 55, qty := 50, priority := 1 }).getD TEOrderBook.mk0) := by
  have h := claim_C5_bbo_recompute.1
    { bids_by_price := [],
      asks_by_price := [{ side := Side.SELL, price := 105,
                          orders := [{ id := 5, side := Side.SELL, price := 105,
                                       qty := 50, priority := 0 }] }],
      bbo := BBO.mk0 }
    { type := UpdType.ADD, order_id := 6, ticker_id := 3, side := Side.SELL,
      price := 55, qty := 50, priority := 1 }
    ((TEOrderBook.on_market_update
      { bids_by_price := [],
        asks_by_price := [{ side := Side.SELL, price := 105,
                            orders := [{ id := 5, side := Side.SELL, price := 105,
                                         qty := 50, priority := 0 }] }],
        bbo := BBO.mk0 }
      { type := UpdType.ADD, order_id := 6, ticker_id := 3, side := Side.SELL,
        price := 55, qty := 50, priority := 1 }).getD TEOrderBook.mk0)
    (by decide) (by rfl)
  exact h.2 (by rfl)

/- ------------------------------------------------------------------ -/
/- Helper lemmas: market-data gap recovery. -/
/- ------------------------------------------------------------------ -/

/-- The snapshot verification loop accepts a buffer whose keys are
    consecutive and collects its non-sentinel updates in order. -/
theorem scanSnap_dense (snap : List (Nat × OMEMarketUpdate)) :
    ∀ n0, snap.map Prod.fst = List.range' n0 snap.length →
    scanSnap n0 snap =
      some ((snap.filter (fun e => !isSnapshotSentinel e.2)).map Prod.snd) := by
  induction snap with
  | nil => intro n0 _; rfl
  | cons e rest ih =>
    obtain ⟨k, u⟩ := e
    intro n0 hk
    simp only [List.map_cons, List.length_cons, List.range'_succ] at hk
    obtain ⟨hk0, hkr⟩ := List.cons.inj hk
    subst hk0
    unfold scanSnap
    rw [if_neg (show ¬(k ≠ k) by simp)]
    rw [ih (k + 1) hkr]
    simp only [List.filter_cons, List.map_cons]
    cases hs : isSnapshotSentinel u <;> simp [hs]

theorem scanInc_skip (below : List (Nat × OMEMarketUpdate)) (splice : Nat)
    (hb : ∀ e ∈ below, e.1 < splice) (ge : List (Nat × OMEMarketUpdate)) :
    scanInc splice (below ++ ge) = scanInc splice ge := by
  induction below with
  | nil => rfl
  | cons e rest ih =>
    obtain ⟨k, u⟩ := e
    have hk : k < splice := hb (k, u) (by simp)
    rw [List.cons_append]
    simp only [scanInc]
    rw [if_pos hk]
    exact ih (fun e he => hb e (by simp [he]))

theorem scanInc_dense (ge : List (Nat × OMEMarketUpdate)) :
    ∀ splice, ge.map Prod.fst = List.range' splice ge.length →
    (∀ e ∈ ge, isSnapshotSentinel e.2 = false) →
    scanInc splice ge = (some (ge.map Prod.snd, ge.length), splice + ge.length) := by
  induction ge with
  | nil => intro splice _ _; simp [scanInc]
  | cons e rest ih =>
    obtain ⟨k, u⟩ := e
    intro splice hk hns
    simp only [List.map_cons, List.length_cons, List.range'_succ] at hk
    obtain ⟨hk0, hkr⟩ := List.cons.inj hk
    subst hk0
    simp only [scanInc]
    rw [if_neg (by omega), if_neg (show ¬(k ≠ k) by simp)]
    rw [ih (k + 1) hkr (fun e he => hns e (by simp [he]))]
    have hsu : isSnapshotSentinel u = false := hns (k, u) (by simp)
    simp [hsu]
    omega


/-- C3: when the buffered snapshot is complete (keys dense from 0,
    first entry SNAPSHOT_START, last entry SNAPSHOT_END) and the
    buffered incrementals split into keys below the splice point
    (SNAPSHOT_END.order_id + 1) and a dense run from the splice,
    snapshot_sync_check forwards exactly the non-sentinel snapshot
    entries in key order followed by those incrementals in key order
    (entries below the splice are never forwarded), sets the next
    expected incremental sequence one past the last forwarded
    incremental, clears both buffers, leaves the snapshot group, and
    returns to LIVE. -/
theorem claim_C3_snapshot_recovery (s : MDCState)
    (last : Nat × OMEMarketUpdate)
    (below ge : List (Nat × OMEMarketUpdate))
    (hne : s.queued_snapshot_updates ≠ [])
    (hkeys : s.queued_snapshot_updates.map Prod.fst =
      List.range s.queued_snapshot_updates.length)
    (hstart : ∀ e ∈ s.queued_snapshot_updates.head?, e.2.type = UpdType.SNAPSHOT_START)
    (hlast : s.queued_snapshot_updates.getLast? = some last)
    (hend : last.2.type = UpdType.SNAPSHOT_END)
    (hsplit : s.queued_incremental_updates = below ++ ge)
    (hbelow : ∀ e ∈ below, e.1 < last.2.order_id + 1)
    (hge : ge.map Prod.fst = List.range' (last.2.order_id + 1) ge.length)
    (hns : ∀ e ∈ ge, isSnapshotSentinel e.2 = false) :
    snapshot_sync_check s =
      ({ queued_snapshot_updates := [], queued_incremental_updates := [],
         n_seq_inc_next := last.2.order_id + 1 + ge.length,
         is_in_recovery := false, snapshot_joined := false },
       (s.queued_snapshot_updates.filter (fun e => !isSnapshotSentinel e.2)).map Prod.snd
         ++ ge.map Prod.snd) ∧
    (∀ e ∈ ge.getLast?, last.2.order_id + 1 + ge.length = e.1 + 1) := by
  constructor
  · cases hsq : s.queued_snapshot_updates with
    | nil => exact absurd hsq hne
    | cons e0 rest =>
      obtain ⟨k0, u0⟩ := e0
      have hu0 : u0.type = UpdType.SNAPSHOT_START := by
        have := hstart (k0, u0) (by rw [hsq]; simp)
        exact this
      have hscan : scanSnap 0 s.queued_snapshot_updates =
          some ((s.queued_snapshot_updates.filter
            (fun e => !isSnapshotSentinel e.2)).map Prod.snd) := by
        apply scanSnap_dense
        rw [← List.range_eq_range']
        exact hkeys
      have hlastD : s.queued_snapshot_updates.getLastD (0, u0) = last := by
        rw [List.getLastD_eq_getLast?, hlast]
        rfl
      unfold snapshot_sync_check
      rw [hsq]
      simp only []
      rw [if_neg (by rw [hu0]; simp)]
      rw [← hsq, hscan]
      simp only []
      rw [hsq] at hlastD ⊢
      rw [hlastD]
      rw [if_neg (by rw [hend]; simp)]
      rw [← hsq]
      rw [hsplit, scanInc_skip below _ hbelow ge, scanInc_dense ge _ hge hns]
  · intro e he
    cases hg : ge with
    | nil => rw [hg] at he; simp at he
    | cons x xs =>
      subst hg
      have hlen : 0 < (x :: xs).length := by simp
      rw [List.getLast?_eq_getElem?] at he
      have hfst : ((x :: xs).map Prod.fst)[(x :: xs).length - 1]? = some e.1 := by
        rw [List.getElem?_map, he]
        rfl
      rw [hge, List.getElem?_range' _ _ (by omega)] at hfst
      simp only [Option.some.injEq] at hfst
      simp only [List.length_cons] at hfst ⊢
      omega

/-- Witness for C3: the S5 scenario, a four-entry snapshot consistent
    with incremental sequence 6 plus buffered incrementals 4, 7 and 8;
    updates 7 and 8 are forwarded after the snapshot body and the stale
    incremental 4 is discarded. -/
theorem claim_C3_witness :
    snapshot_sync_check
      { queued_snapshot_updates :=
          [(0, { type := UpdType.SNAPSHOT_START, order_id := 6, ticker_id := 0,
                 side := Side.INVALID, price := 0, qty := 0, priority := 0 }),
           (1, { type := UpdType.CLEAR, order_id := 0, ticker_id := 0,
                 side := Side.INVALID, price := 0, qty := 0, priority := 0 }),
           (2, { type := UpdType.ADD, order_id := 11, ticker_id := 0,
                 side := Side.SELL, price := 105, qty := 50, priority := 1 }),
           (3, { type := UpdType.SNAPSHOT_END, order_id := 6, ticker_id := 0,
                 side := Side.INVALID, price := 0, qty := 0, priority := 0 })],
        queued_incremental_updates :=
          [(4, { type := UpdType.MODIFY, order_id := 21, ticker_id := 0,
                 side := Side.SELL, price := 105, qty := 40, priority := 1 }),
           (7, { type := UpdType.MODIFY, order_id := 22, ticker_id := 0,
                 side := Side.SELL, price := 105, qty := 30, priority := 1 }),
           (8, { type := UpdType.CANCEL, order_id := 23, ticker_id := 0,
                 side := Side.SELL, price := 105, qty := 0, priority := 1 })],
        n_seq_inc_next := 3, is_in_recovery := true, snapshot_joined := true } =
      ({ queued_snapshot_updates := [], queued_incremental_updates := [],
         n_seq_inc_next := 9, is_in_recovery := false, snapshot_joined := false },
       [{ type := UpdType.CLEAR, order_id := 0, ticker_id := 0,
          side := Side.INVALID, price := 0, qty := 0, priority := 0 },
        { type := UpdType.ADD, order_id := 11, ticker_id := 0,
          side := Side.SELL, price := 105, qty := 50, priority := 1 },
        { type := UpdType.MODIFY, order_id := 22, ticker_id := 0,
          side := Side.SELL, price := 105, qty := 30, priority := 1 },
        { type := UpdType.CANCEL, order_id := 23, ticker_id := 0,
          side := Side.SELL, price := 105, qty := 0, priority := 1 }]) := by
  have h := claim_C3_snapshot_recovery
    { queued_snapshot_updates :=
        [(0, { type := UpdType.SNAPSHOT_START, order_id := 6, ticker_id := 0,
               side := Side.INVALID, price := 0, qty := 0, priority := 0 }),
         (1, { type := UpdType.CLEAR, order_id := 0, ticker_id := 0,
               side := Side.INVALID, price := 0, qty := 0, priority := 0 }),
         (2, { type := UpdType.ADD, order_id := 11, ticker_id := 0,
               side := Side.SELL, price := 105, qty := 50, priority := 1 }),
         (3, { type := UpdType.SNAPSHOT_END, order_id := 6, ticker_id := 0,
               side := Side.INVALID, price := 0, qty := 0, priority := 0 })],
      queued_incremental_updates :=
        [(4, { type := UpdType.MODIFY, order_id := 21, ticker_id := 0,
               side := Side.SELL, price := 105, qty := 40, priority := 1 }),
         (7, { type := UpdType.MODIFY, order_id := 22, ticker_id := 0,
               side := Side.SELL, price := 105, qty := 30, priority := 1 }),
         (8, { type := UpdType.CANCEL, order_id := 23, ticker_id := 0,
               side := Side.SELL, price := 105, qty := 0, priority := 1 })],
      n_seq_inc_next := 3, is_in_recovery := true, snapshot_joined := true }
    (3, { type := UpdType.SNAPSHOT_END, order_id := 6, ticker_id := 0,
          side := Side.INVALID, price := 0, qty := 0, priority := 0 })
    [(4, { type := UpdType.MODIFY, order_id := 21, ticker_id := 0,
           side := Side.SELL, price := 105, qty := 40, priority := 1 })]
    [(7, { type := UpdType.MODIFY, order_id := 22, ticker_id := 0,
           side := Side.SELL, price := 105, qty := 30, priority := 1 }),
     (8, { type := UpdType.CANCEL, order_id := 23, ticker_id := 0,
           side := Side.SELL, price := 105, qty := 0, priority := 1 })]
    (by simp) (by rfl)
    (by intro e he; rw [Option.mem_def] at he; injection he with he; rw [← he])
    (by rfl) (by rfl) (by rfl)
    (by intro e he; fin_cases he <;> simp)
    (by rfl)
    (by intro e he; fin_cases he <;> rfl)
  exact h.1

/- ------------------------------------------------------------------ -/
/- Helper lemmas: matching loop. -/
/- ------------------------------------------------------------------ -/

/-- The matching loop computes exactly the greedy fill schedule of
    section 4.3: its responses and updates are the rendering of the
    specFills schedule over the flattened opposite-side FIFO, and the
    remaining qty is the incoming qty minus the filled total. -/
theorem findMatchLoop_eq_spec (ticker_id client_id : Nat) (side : Side)
    (client_oid new_market_oid : Nat) (price : Int) :
    ∀ (n q : Nat) (levels : List OMEOrdersAtPrice), ordersCount levels ≤ n →
    levelsNonempty levels →
    findMatchLoop ticker_id client_id side client_oid new_market_oid price q levels
        = (q - fillsSum (specFills side price q (levels.flatMap (fun l => l.orders))),
           (findMatchLoop ticker_id client_id side client_oid new_market_oid price q levels).2.1,
           renderFills ticker_id client_id client_oid new_market_oid side q
             (specFills side price q (levels.flatMap (fun l => l.orders)))) := by
  intro n
  induction n with
  | zero =>
    intro q levels hcount hne
    cases levels with
    | nil =>
      cases q <;> simp [findMatchLoop, specFills, renderFills, fillsSum]
    | cons lvl rest =>
      exfalso
      have h1 : lvl.orders ≠ [] := hne lvl (by simp)
      have h2 : 1 ≤ lvl.orders.length := by
        cases ho : lvl.orders
        · exact absurd ho h1
        · simp
      simp only [ordersCount, List.map_cons, List.sum_cons, Nat.le_zero] at hcount
      omega
  | succ n ihn =>
    intro q levels hcount hne
    cases q with
    | zero => simp [findMatchLoop, specFills, renderFills, fillsSum]
    | succ q =>
      cases levels with
      | nil => simp [findMatchLoop, specFills, renderFills, fillsSum]
      | cons lvl rest =>
        obtain ⟨lside, lprice, lorders⟩ := lvl
        cases ho : lorders with
        | nil =>
          exact absurd (by simpa using ho) (hne ⟨lside, lprice, lorders⟩ (by simp))
        | cons o os =>
          subst ho
          rw [findMatchLoop]
          simp only [List.flatMap_cons, List.cons_append]
          by_cases hbreak : breaksCross side price o.price = true
          · rw [if_pos hbreak]
            rw [specFills]
            rw [if_pos hbreak]
            simp [renderFills, fillsSum]
          · rw [if_neg hbreak]
            rw [specFills]
            rw [if_neg hbreak]
            by_cases hfull : o.qty - min (q + 1) o.qty = 0
            · rw [if_pos hfull]
              have hcount2 : ordersCount (if os.isEmpty = true then rest
                  else { side := lside, price := lprice, orders := os } :: rest) ≤ n := by
                simp only [ordersCount, List.map_cons, List.sum_cons, List.length_cons]
                  at hcount
                by_cases hos : os.isEmpty = true
                · rw [if_pos hos]
                  simp only [ordersCount]
                  omega
                · rw [if_neg hos]
                  simp only [ordersCount, List.map_cons, List.sum_cons]
                  omega
              have hne2 : levelsNonempty (if os.isEmpty = true then rest
                  else { side := lside, price := lprice, orders := os } :: rest) := by
                intro l hl
                by_cases hos : os.isEmpty = true
                · rw [if_pos hos] at hl
                  exact hne l (List.mem_cons_of_mem _ hl)
                · rw [if_neg hos] at hl
                  cases hl with
                  | head => simpa using hos
                  | tail _ h => exact hne l (List.mem_cons_of_mem _ h)
              have ihk := ihn (q + 1 - min (q + 1) o.qty) _ hcount2 hne2
              rw [ihk]
              have hflat : ((if os.isEmpty = true then rest
                  else { side := lside, price := lprice, orders := os } :: rest).flatMap
                    (fun l => l.orders)) = os ++ rest.flatMap (fun l => l.orders) := by
                by_cases hos : os.isEmpty = true
                · rw [if_pos hos]
                  rw [List.isEmpty_iff] at hos
                  rw [hos]
                  simp
                · rw [if_neg hos]
                  simp
              rw [hflat]
              rw [renderFills]
              simp only [Prod.mk.injEq, fillsSum, List.map_cons, List.sum_cons, hfull]
              and_intros <;> first | omega | rfl | simp [hfull]
            · rw [if_neg hfull]
              have hq1 : min (q + 1) o.qty = q + 1 := by omega
              rw [hq1] at hfull
              rw [hq1]
              simp only [Nat.sub_self]
              rw [specFills]
              rw [renderFills]
              simp only [Prod.mk.injEq, fillsSum, List.map_cons, List.sum_cons,
                List.map_nil, List.sum_nil, renderFills, hq1, Nat.sub_self]
              and_intros <;> first | omega | rfl | simp [hfull]

/-- Every CANCEL update the matching loop emits has priority INVALID
    and is the updCancelMatched of one of the resting orders with its
    pre-fill qty. -/
theorem findMatchLoop_cancel_upds (ticker_id client_id : Nat) (side : Side)
    (client_oid new_market_oid : Nat) (price : Int) :
    ∀ (n q : Nat) (levels : List OMEOrdersAtPrice), ordersCount levels ≤ n →
    ∀ u ∈ (findMatchLoop ticker_id client_id side client_oid new_market_oid
      price q levels).2.2.2, u.type = UpdType.CANCEL →
      u.priority = Priority_INVALID ∧
      ∃ o, o ∈ levels.flatMap (fun l => l.orders) ∧ u = updCancelMatched ticker_id o o.qty := by
  intro n
  induction n with
  | zero =>
    intro q levels hcount u hu hut
    cases levels with
    | nil =>
      cases q <;> simp [findMatchLoop] at hu
    | cons lvl rest =>
      cases q with
      | zero => simp [findMatchLoop] at hu
      | succ q =>
        obtain ⟨lside, lprice, lorders⟩ := lvl
        cases ho : lorders with
        | nil =>
          subst ho
          simp [findMatchLoop] at hu
        | cons o os =>
          exfalso
          subst ho
          simp only [ordersCount, List.map_cons, List.sum_cons, List.length_cons,
            Nat.le_zero] at hcount
          omega
  | succ n ihn =>
    intro q levels hcount u hu hut
    cases levels with
    | nil =>
      cases q <;> simp [findMatchLoop] at hu
    | cons lvl rest =>
      cases q with
      | zero => simp [findMatchLoop] at hu
      | succ q =>
        obtain ⟨lside, lprice, lorders⟩ := lvl
        cases ho : lorders with
        | nil =>
          subst ho
          simp [findMatchLoop] at hu
        | cons o os =>
          subst ho
          rw [findMatchLoop] at hu
          simp only [] at hu
          by_cases hbreak : breaksCross side price o.price = true
          · rw [if_pos hbreak] at hu
            simp at hu
          · rw [if_neg hbreak] at hu
            by_cases hfull : o.qty - min (q + 1) o.qty = 0
            · rw [if_pos hfull] at hu
              simp only [List.cons_append, List.nil_append, List.mem_cons] at hu
              rcases hu with hu | hu | hu
              · rw [hu] at hut
                simp [updTrade] at hut
              · subst hu
                refine ⟨rfl, o, ?_, rfl⟩
                simp
              · have hcount2 : ordersCount (if os.isEmpty = true then rest
                    else { side := lside, price := lprice, orders := os } :: rest) ≤ n := by
                  simp only [ordersCount, List.map_cons, List.sum_cons,
                    List.length_cons] at hcount
                  by_cases hos : os.isEmpty = true
                  · rw [if_pos hos]
                    simp only [ordersCount]
                    omega
                  · rw [if_neg hos]
                    simp only [ordersCount, List.map_cons, List.sum_cons]
                    omega
                obtain ⟨hp, o2, ho2, hu2⟩ := ihn _ _ hcount2 u hu hut
                refine ⟨hp, o2, ?_, hu2⟩
                simp only [List.flatMap_cons, List.cons_append, List.mem_cons]
                by_cases hos : os.isEmpty = true
                · rw [if_pos hos] at ho2
                  right
                  rw [List.isEmpty_iff] at hos
                  subst hos
                  simpa using ho2
                · rw [if_neg hos] at ho2
                  simp only [List.flatMap_cons] at ho2
                  right
                  simpa using ho2
            · rw [if_neg hfull] at hu
              simp only [List.mem_cons, List.mem_singleton] at hu
              rcases hu with hu | hu | hu
              · rw [hu] at hut
                simp [updTrade] at hut
              · rw [hu] at hut
                simp [updModify] at hut
              · simp at hu

/-- OMEOrderBook::add emits the ACCEPTED response first, then the
    match messages; a nonzero remainder rests in the book with an ADD
    update carrying the remainder and the level's next priority. -/
theorem add_structure (b : OMEOrderBook) (c coid t : Nat) (s : Side) (p : Int) (q : Nat)
    (res : OMEOrderBook × List OMEClientResponse × List OMEMarketUpdate)
    (m : Nat × OMEOrderBook × List OMEClientResponse × List OMEMarketUpdate)
    (hm : m = OMEOrderBook.find_match { b with next_market_oid := b.next_market_oid + 1 }
      c coid t s p q b.next_market_oid)
    (h : b.add c coid t s p q = Except.ok res) :
    res.2.1 =
      { type := RespType.ACCEPTED, client_id := c, ticker_id := t,
        client_order_id := coid, market_order_id := b.next_market_oid, side := s,
        price := p, qty_exec := 0, qty_remain := q } :: m.2.2.1 ∧
    (m.1 = 0 → res.2.2 = m.2.2.2 ∧ res.1 = m.2.1) ∧
    (m.1 ≠ 0 → res.2.2 = m.2.2.2 ++
        [{ type := UpdType.ADD, order_id := b.next_market_oid, ticker_id := t,
           side := s, price := p, qty := m.1,
           priority := m.2.1.get_next_priority p }] ∧
      res.1 = m.2.1.add_order_to_book
        { ticker_id := t, client_id := c, client_order_id := coid,
          market_order_id := b.next_market_oid, side := s, price := p,
          qty := m.1, priority := m.2.1.get_next_priority p }) := by
  unfold OMEOrderBook.add at h
  simp only [] at h
  rw [← hm] at h
  by_cases hq : m.1 ≠ 0
  · rw [if_pos hq] at h
    by_cases hids : c < MAX_N_CLIENTS ∧ coid < MAX_ORDER_IDS
    · rw [if_pos hids] at h
      injection h with h
      subst h
      refine ⟨rfl, fun h0 => absurd h0 hq, fun _ => ⟨rfl, rfl⟩⟩
    · rw [if_neg hids] at h
      cases h
  · rw [if_neg hq] at h
    injection h with h
    subst h
    push_neg at hq
    exact ⟨rfl, fun _ => ⟨rfl, rfl⟩, fun hne => absurd hq hne⟩

/-- C10: a CANCEL market update from an explicit cancel carries qty 0
    and the resting order's priority, while a CANCEL emitted for a
    resting order fully consumed by matching carries the order's
    pre-fill qty (nonzero for live orders) and priority INVALID. -/
theorem claim_C10_cancel_qty :
    (∀ (b : OMEOrderBook) (client_id order_id ticker_id : Nat) (o : OMEOrder),
      client_id < MAX_N_CLIENTS → order_id < MAX_ORDER_IDS →
      b.lookupClientOrder client_id order_id = some o →
      b.cancel client_id order_id ticker_id = Except.ok (b.remove_order_from_book o,
        { type := RespType.CANCELLED, client_id := client_id, ticker_id := ticker_id,
          client_order_id := order_id, market_order_id := o.market_order_id,
          side := o.side, price := o.price, qty_exec := Qty_INVALID,
          qty_remain := o.qty },
        [{ type := UpdType.CANCEL, order_id := o.market_order_id,
           ticker_id := ticker_id, side := o.side, price := o.price,
           qty := 0, priority := o.priority }])) ∧
    (∀ (ticker_id client_id : Nat) (side : Side) (client_oid new_market_oid : Nat)
       (price : Int) (q : Nat) (levels : List OMEOrdersAtPrice),
      (∀ l ∈ levels, ∀ o ∈ l.orders, 0 < o.qty) →
      ∀ u ∈ (findMatchLoop ticker_id client_id side client_oid new_market_oid
        price q levels).2.2.2, u.type = UpdType.CANCEL →
        u.priority = Priority_INVALID ∧ u.qty ≠ 0 ∧
        ∃ o, o ∈ levels.flatMap (fun l => l.orders) ∧
          u = updCancelMatched ticker_id o o.qty) := by
  constructor
  · intro b client_id order_id ticker_id o hc ho hl
    unfold OMEOrderBook.cancel
    rw [if_pos hc, if_pos ho, hl]
  · intro ticker_id client_id side client_oid new_market_oid price q levels hpos u hu hut
    obtain ⟨hp, o, ho, huo⟩ := findMatchLoop_cancel_upds ticker_id client_id side
      client_oid new_market_oid price (ordersCount levels) q levels (le_refl _) u hu hut
    refine ⟨hp, ?_, o, ho, huo⟩
    obtain ⟨l, hlmem, homem⟩ := List.mem_flatMap.mp ho
    have := hpos l hlmem o homem
    rw [huo]
    simp only [updCancelMatched]
    omega

/-- Witness for C10: explicit cancel of the lone resting ask 100 at 100
    emits a CANCEL update with qty 0 and priority 1. -/
theorem claim_C10_witness :
    OMEOrderBook.cancel
      { bids_by_price := [],
        asks_by_price :=
          [{ side := Side.SELL, price := 100,
             orders :=
               [{ ticker_id := 0, client_id := 0, client_order_id := 0,
                  market_order_id := 1, side := Side.SELL, price := 100,
                  qty := 100, priority := 1 }] }],
        next_market_oid := 2 } 0 0 0 = Except.ok
      (OMEOrderBook.remove_order_from_book
        { bids_by_price := [],
          asks_by_price :=
            [{ side := Side.SELL, price := 100,
               orders :=
                 [{ ticker_id := 0, client_id := 0, client_order_id := 0,
                    market_order_id := 1, side := Side.SELL, price := 100,
                    qty := 100, priority := 1 }] }],
          next_market_oid := 2 }
        { ticker_id := 0, client_id := 0, client_order_id := 0,
          market_order_id := 1, side := Side.SELL, price := 100,
          qty := 100, priority := 1 },
       { type := RespType.CANCELLED, client_id := 0, ticker_id := 0,
         client_order_id := 0, market_order_id := 1,
         side := Side.SELL, price := 100, qty_exec := Qty_INVALID,
         qty_remain := 100 },
       [{ type := UpdType.CANCEL, order_id := 1,
          ticker_id := 0, side := Side.SELL, price := 100,
          qty := 0, priority := 1 }]) :=
  claim_C10_cancel_qty.1
    { bids_by_price := [],
      asks_by_price :=
        [{ side := Side.SELL, price := 100,
           orders :=
             [{ ticker_id := 0, client_id := 0, client_order_id := 0,
                market_order_id := 1, side := Side.SELL, price := 100,
                qty := 100, priority := 1 }] }],
      next_market_oid := 2 } 0 0 0
    { ticker_id := 0, client_id := 0, client_order_id := 0,
      market_order_id := 1, side := Side.SELL, price := 100,
      qty := 100, priority := 1 }
    (by norm_num [MAX_N_CLIENTS, OME_SIZE]) (by norm_num [MAX_ORDER_IDS]) (by rfl)

/-- C1: matching consumes resting orders of the opposite side in
    price-then-priority order while the book crosses, filling
    min(remaining, resting qty) with two FILLED responses, one TRADE at
    the resting price and a CANCEL (full) or MODIFY (partial) per match
    (the loop equals the spec's greedy schedule rendering); any
    remaining qty rests with an ADD update carrying the level's next
    priority; and the S2 scenario evaluates exactly as claimed: a
    TRADE of 100 at 100, a CANCEL of the resting ask, and a resting bid
    77 at 100 with priority 1 plus its ADD update. -/
theorem claim_C1_matching :
    (∀ (ticker_id client_id : Nat) (side : Side) (client_oid new_market_oid : Nat)
       (price : Int) (q : Nat) (levels : List OMEOrdersAtPrice),
      levelsNonempty levels →
      findMatchLoop ticker_id client_id side client_oid new_market_oid price q levels
        = (q - fillsSum (specFills side price q (levels.flatMap (fun l => l.orders))),
           (findMatchLoop ticker_id client_id side client_oid new_market_oid
             price q levels).2.1,
           renderFills ticker_id client_id client_oid new_market_oid side q
             (specFills side price q (levels.flatMap (fun l => l.orders))))) ∧
    (∀ (b : OMEOrderBook) (c coid t : Nat) (s : Side) (p : Int) (q : Nat)
       (res : OMEOrderBook × List OMEClientResponse × List OMEMarketUpdate)
       (m : Nat × OMEOrderBook × List OMEClientResponse × List OMEMarketUpdate),
      m = OMEOrderBook.find_match { b with next_market_oid := b.next_market_oid + 1 }
        c coid t s p q b.next_market_oid →
      b.add c coid t s p q = Except.ok res →
      res.2.1 =
        { type := RespType.ACCEPTED, client_id := c, ticker_id := t,
          client_order_id := coid, market_order_id := b.next_market_oid, side := s,
          price := p, qty_exec := 0, qty_remain := q } :: m.2.2.1 ∧
      (m.1 = 0 → res.2.2 = m.2.2.2 ∧ res.1 = m.2.1) ∧
      (m.1 ≠ 0 → res.2.2 = m.2.2.2 ++
          [{ type := UpdType.ADD, order_id := b.next_market_oid, ticker_id := t,
             side := s, price := p, qty := m.1,
             priority := m.2.1.get_next_priority p }] ∧
        res.1 = m.2.1.add_order_to_book
          { ticker_id := t, client_id := c, client_order_id := coid,
            market_order_id := b.next_market_oid, side := s, price := p,
            qty := m.1, priority := m.2.1.get_next_priority p })) ∧
    (OMEOrderBook.mk0.add 0 0 0 Side.SELL 100 100 = Except.ok
      ({ bids_by_price := [],
         asks_by_price :=
           [{ side := Side.SELL, price := 100,
              orders :=
                [{ ticker_id := 0, client_id := 0, client_order_id := 0,
                   market_order_id := 1, side := Side.SELL, price := 100,
                   qty := 100, priority := 1 }] }],
         next_market_oid := 2 },
       [{ type := RespType.ACCEPTED, client_id := 0, ticker_id := 0,
          client_order_id := 0, market_order_id := 1, side := Side.SELL,
          price := 100, qty_exec := 0, qty_remain := 100 }],
       [{ type := UpdType.ADD, order_id := 1, ticker_id := 0, side := Side.SELL,
          price := 100, qty := 100, priority := 1 }])) ∧
    (OMEOrderBook.add
      { bids_by_price := [],
        asks_by_price :=
          [{ side := Side.SELL, price := 100,
             orders :=
               [{ ticker_id := 0, client_id := 0, client_order_id := 0,
                  market_order_id := 1, side := Side.SELL, price := 100,
                  qty := 100, priority := 1 }] }],
        next_market_oid := 2 }
      1 0 0 Side.BUY 100 177 = Except.ok
      ({ bids_by_price :=
           [{ side := Side.BUY, price := 100,
              orders :=
                [{ ticker_id := 0, client_id := 1, client_order_id := 0,
                   market_order_id := 2, side := Side.BUY, price := 100,
                   qty := 77, priority := 1 }] }],
         asks_by_price := [],
         next_market_oid := 3 },
       [{ type := RespType.ACCEPTED, client_id := 1, ticker_id := 0,
          client_order_id := 0, market_order_id := 2, side := Side.BUY,
          price := 100, qty_exec := 0, qty_remain := 177 },
        { type := RespType.FILLED, client_id := 1, ticker_id := 0,
          client_order_id := 0, market_order_id := 2, side := Side.BUY,
          price := 100, qty_exec := 100, qty_remain := 77 },
        { type := RespType.FILLED, client_id := 0, ticker_id := 0,
          client_order_id := 0, market_order_id := 1, side := Side.SELL,
          price := 100, qty_exec := 100, qty_remain := 0 }],
       [{ type := UpdType.TRADE, order_id := OrderID_INVALID, ticker_id := 0,
          side := Side.BUY, price := 100, qty := 100,
          priority := Priority_INVALID },
        { type := UpdType.CANCEL, order_id := 1, ticker_id := 0,
          side := Side.SELL, price := 100, qty := 100,
          priority := Priority_INVALID },
        { type := UpdType.ADD, order_id := 2, ticker_id := 0, side := Side.BUY,
          price := 100, qty := 77, priority := 1 }])) := by
  refine ⟨?_, ?_, ?_, ?_⟩
  · intro ticker_id client_id side client_oid new_market_oid price q levels hne
    exact findMatchLoop_eq_spec ticker_id client_id side client_oid new_market_oid
      price (ordersCount levels) q levels (le_refl _) hne
  · intro b c coid t s p q res m hm h
    exact add_structure b c coid t s p q res m hm h
  · simp [OMEOrderBook.add, OMEOrderBook.find_match, findMatchLoop, OMEOrderBook.mk0,
      OMEOrderBook.add_order_to_book, OMEOrderBook.get_level_for_price, price_to_index,
      add_price_level, OMEOrderBook.get_next_priority, breaksCross, respFilledIncoming,
      respFilledResting, updTrade, updCancelMatched, updModify, lessAggressive,
      appendToLevel, MAX_PRICE_LEVELS, MAX_N_CLIENTS, MAX_ORDER_IDS, OME_SIZE]
  · simp [OMEOrderBook.add, OMEOrderBook.find_match, findMatchLoop, OMEOrderBook.mk0,
      OMEOrderBook.add_order_to_book, OMEOrderBook.get_level_for_price, price_to_index,
      add_price_level, OMEOrderBook.get_next_priority, breaksCross, respFilledIncoming,
      respFilledResting, updTrade, updCancelMatched, updModify, lessAggressive,
      appendToLevel, MAX_PRICE_LEVELS, MAX_N_CLIENTS, MAX_ORDER_IDS, OME_SIZE,
      OrderID_INVALID, Priority_INVALID]

/-- Witness for C1: the matching-loop clause applied to the S2 book
    (one resting ask of 100 at price 100) and the incoming buy 177. -/
theorem claim_C1_witness :
    findMatchLoop 0 1 Side.BUY 0 2 100 177
      [{ side := Side.SELL, price := 100,
         orders :=
           [{ ticker_id := 0, client_id := 0, client_order_id := 0,
              market_order_id := 1, side := Side.SELL, price := 100,
              qty := 100, priority := 1 }] }]
      = (177 - fillsSum (specFills Side.BUY 100 177
          (([{ side := Side.SELL, price := 100,
               orders :=
                 [{ ticker_id := 0, client_id := 0, client_order_id := 0,
                    market_order_id := 1, side := Side.SELL, price := 100,
                    qty := 100, priority := 1 }] }] :
              List OMEOrdersAtPrice).flatMap (fun l => l.orders))),
         (findMatchLoop 0 1 Side.BUY 0 2 100 177
           [{ side := Side.SELL, price := 100,
              orders :=
                [{ ticker_id := 0, client_id := 0, client_order_id := 0,
                   market_order_id := 1, side := Side.SELL, price := 100,
                   qty := 100, priority := 1 }] }]).2.1,
         renderFills 0 1 0 2 Side.BUY 177
           (specFills Side.BUY 100 177
             (([{ side := Side.SELL, price := 100,
                  orders :=
                    [{ ticker_id := 0, client_id := 0, client_order_id := 0,
                       market_order_id := 1, side := Side.SELL, price := 100,
                       qty := 100, priority := 1 }] }] :
                 List OMEOrdersAtPrice).flatMap (fun l => l.orders)))) :=
  claim_C1_matching.1 0 1 Side.BUY 0 2 100 177
    [{ side := Side.SELL, price := 100,
       orders :=
         [{ ticker_id := 0, client_id := 0, client_order_id := 0,
            market_order_id := 1, side := Side.SELL, price := 100,
            qty := 100, priority := 1 }] }]
    (by intro l hl; simp at hl; subst hl; simp)

/- ------------------------------------------------------------------ -/
/- C2: the no-crossed-book invariant.                                  -/
/- ------------------------------------------------------------------ -/

/-- Combined invariant of the matching loop: resting levels stay
    well-formed for their side, the surviving level prices are a sublist
    of the input prices, and when qty remains the head level no longer
    crosses the incoming price. -/
theorem findMatchLoop_book_inv (ticker_id client_id : Nat) (side : Side)
    (client_oid new_market_oid : Nat) (price : Int) (s : Side) :
    ∀ (n q : Nat) (levels : List OMEOrdersAtPrice), ordersCount levels ≤ n →
    (∀ l ∈ levels, sideOk s l) →
    ((∀ l2 ∈ (findMatchLoop ticker_id client_id side client_oid new_market_oid
        price q levels).2.1, sideOk s l2) ∧
     List.Sublist ((findMatchLoop ticker_id client_id side client_oid new_market_oid
        price q levels).2.1.map (fun l => l.price)) (levels.map (fun l => l.price)) ∧
     ((findMatchLoop ticker_id client_id side client_oid new_market_oid
        price q levels).1 ≠ 0 →
      ∀ hl ∈ (findMatchLoop ticker_id client_id side client_oid new_market_oid
        price q levels).2.1.head?, breaksCross side price hl.price = true)) := by
  intro n
  induction n with
  | zero =>
    intro q levels hcount hok
    cases levels with
    | nil =>
      cases q <;> simp [findMatchLoop]
    | cons lvl rest =>
      exfalso
      have h1 : lvl.orders ≠ [] := (hok lvl (by simp)).2.1
      have h2 : 1 ≤ lvl.orders.length := by
        cases ho : lvl.orders
        · exact absurd ho h1
        · simp
      simp only [ordersCount, List.map_cons, List.sum_cons, Nat.le_zero] at hcount
      omega
  | succ n ihn =>
    intro q levels hcount hok
    cases q with
    | zero =>
      simp only [findMatchLoop]
      exact ⟨hok, List.Sublist.refl _, fun h0 => absurd rfl h0⟩
    | succ q =>
      cases levels with
      | nil =>
        simp only [findMatchLoop]
        exact ⟨hok, List.Sublist.refl _, by simp⟩
      | cons lvl rest =>
        obtain ⟨lside, lprice, lorders⟩ := lvl
        cases ho : lorders with
        | nil =>
          exact absurd (by simpa using ho)
            ((hok ⟨lside, lprice, lorders⟩ (by simp)).2.1)
        | cons o os =>
          subst ho
          rw [findMatchLoop]
          simp only []
          by_cases hbreak : breaksCross side price o.price = true
          · rw [if_pos hbreak]
            refine ⟨hok, List.Sublist.refl _, fun _ hl hmem => ?_⟩
            simp only [List.head?_cons, Option.mem_def, Option.some.injEq] at hmem
            subst hmem
            have hop : o.price = lprice :=
              ((hok ⟨lside, lprice, o :: os⟩ (by simp)).2.2.2.2 o (by simp)).2
            exact hop ▸ hbreak
          · rw [if_neg hbreak]
            by_cases hfull : o.qty - min (q + 1) o.qty = 0
            · rw [if_pos hfull]
              have hok2 : ∀ l ∈ (if os.isEmpty = true then rest
                  else { side := lside, price := lprice, orders := os } :: rest),
                  sideOk s l := by
                intro l hl
                by_cases hos : os.isEmpty = true
                · rw [if_pos hos] at hl
                  exact hok l (List.mem_cons_of_mem _ hl)
                · rw [if_neg hos] at hl
                  cases hl with
                  | head =>
                    obtain ⟨hs1, _, hs3, hs4, hs5⟩ := hok ⟨lside, lprice, o :: os⟩ (by simp)
                    refine ⟨hs1, by simpa using hos, hs3, hs4, ?_⟩
                    intro o2 ho2
                    exact hs5 o2 (List.mem_cons_of_mem _ ho2)
                  | tail _ h => exact hok l (List.mem_cons_of_mem _ h)
              have hcount2 : ordersCount (if os.isEmpty = true then rest
                  else { side := lside, price := lprice, orders := os } :: rest) ≤ n := by
                simp only [ordersCount, List.map_cons, List.sum_cons,
                  List.length_cons] at hcount
                by_cases hos : os.isEmpty = true
                · rw [if_pos hos]
                  simp only [ordersCount]
                  omega
                · rw [if_neg hos]
                  simp only [ordersCount, List.map_cons, List.sum_cons]
                  omega
              obtain ⟨ha, hb, hc⟩ := ihn _ _ hcount2 hok2
              refine ⟨ha, ?_, hc⟩
              refine hb.trans ?_
              by_cases hos : os.isEmpty = true
              · rw [if_pos hos]
                simp only [List.map_cons]
                exact List.sublist_cons_self _ _
              · rw [if_neg hos]
                simp
            · rw [if_neg hfull]
              refine ⟨?_, by simp, ?_⟩
              · intro l2 hl2
                cases hl2 with
                | head =>
                  obtain ⟨hs1, _, hs3, hs4, hs5⟩ := hok ⟨lside, lprice, o :: os⟩ (by simp)
                  refine ⟨hs1, by simp, hs3, hs4, ?_⟩
                  intro o2 ho2
                  cases ho2 with
                  | head => exact ⟨(hs5 o (by simp)).1, (hs5 o (by simp)).2⟩
                  | tail _ h => exact hs5 o2 (List.mem_cons_of_mem _ h)
                | tail _ h => exact hok l2 (List.mem_cons_of_mem _ h)
              · intro hr0
                exfalso
                apply hr0
                omega

theorem chain_prices_of_sublist {R : Int → Int → Prop} (htrans : Transitive R)
    {ls ls2 : List OMEOrdersAtPrice}
    (hsub : List.Sublist (ls2.map (fun l => l.price)) (ls.map (fun l => l.price)))
    (hch : List.Chain' (fun a b : OMEOrdersAtPrice => R a.price b.price) ls) :
    List.Chain' (fun a b : OMEOrdersAtPrice => R a.price b.price) ls2 := by
  haveI : IsTrans Int R := ⟨htrans⟩
  rw [← List.chain'_map (fun l : OMEOrdersAtPrice => l.price)] at hch ⊢
  rw [List.chain'_iff_pairwise] at hch ⊢
  exact hch.sublist hsub

theorem head_price_of_sublist {R : Int → Int → Prop} (htrans : Transitive R)
    {ls ls2 : List OMEOrdersAtPrice}
    (hsub : List.Sublist (ls2.map (fun l => l.price)) (ls.map (fun l => l.price)))
    (hch : List.Chain' (fun a b : OMEOrdersAtPrice => R a.price b.price) ls) :
    ∀ hl2 ∈ ls2.head?, ∃ hl, ls.head? = some hl ∧
      (hl.price = hl2.price ∨ R hl.price hl2.price) := by
  haveI : IsTrans Int R := ⟨htrans⟩
  intro hl2 hm
  cases ls2 with
  | nil => simp at hm
  | cons x t =>
    simp only [List.head?_cons, Option.mem_def, Option.some.injEq] at hm
    have hmem : hl2.price ∈ ls.map (fun l => l.price) :=
      hsub.subset (by rw [← hm]; simp)
    cases ls with
    | nil => simp at hmem
    | cons hl t2 =>
      refine ⟨hl, rfl, ?_⟩
      rw [← List.chain'_map (fun l : OMEOrdersAtPrice => l.price),
        List.chain'_iff_pairwise] at hch
      simp only [List.map_cons, List.mem_cons] at hmem
      cases hmem with
      | inl h => exact Or.inl h.symm
      | inr h => exact Or.inr ((List.pairwise_cons.mp hch).1 _ h)

theorem add_price_level_mem (side : Side) (p : Int) (lvl : OMEOrdersAtPrice) :
    ∀ ls : List OMEOrdersAtPrice, ∀ x ∈ add_price_level side p lvl ls, x = lvl ∨ x ∈ ls := by
  intro ls
  induction ls with
  | nil => intro x hx; simp [add_price_level] at hx; exact Or.inl hx
  | cons l t ih =>
    intro x hx
    simp only [add_price_level] at hx
    split at hx
    · rcases List.mem_cons.mp hx with h | h
      · exact Or.inl h
      · exact Or.inr h
    · rcases List.mem_cons.mp hx with h | h
      · exact Or.inr (by simp [h])
      · rcases ih x h with h2 | h2
        · exact Or.inl h2
        · exact Or.inr (List.mem_cons_of_mem _ h2)

theorem add_price_level_head (side : Side) (p : Int) (lvl : OMEOrdersAtPrice)
    (ls : List OMEOrdersAtPrice) :
    ∀ x ∈ (add_price_level side p lvl ls).head?, x = lvl ∨ ls.head? = some x := by
  intro x hx
  cases ls with
  | nil =>
    simp only [add_price_level, List.head?_cons, Option.mem_def, Option.some.injEq] at hx
    exact Or.inl hx.symm
  | cons l t =>
    simp only [add_price_level] at hx
    split at hx
    · simp only [List.head?_cons, Option.mem_def, Option.some.injEq] at hx
      exact Or.inl hx.symm
    · simp only [List.head?_cons, Option.mem_def, Option.some.injEq] at hx
      exact Or.inr (congrArg some hx)

theorem add_price_level_chain_buy (p : Int) (lvl : OMEOrdersAtPrice) (hlp : lvl.price = p) :
    ∀ ls : List OMEOrdersAtPrice,
    List.Chain' (fun x y : OMEOrdersAtPrice => y.price < x.price) ls →
    (∀ l ∈ ls, l.price ≠ p) →
    List.Chain' (fun x y : OMEOrdersAtPrice => y.price < x.price)
      (add_price_level Side.BUY p lvl ls) := by
  intro ls
  induction ls with
  | nil => intro _ _; simp [add_price_level]
  | cons l t ih =>
    intro hch hne
    simp only [add_price_level]
    by_cases hla : lessAggressive Side.BUY p l = true
    · rw [if_pos hla]
      rw [List.chain'_cons]
      refine ⟨?_, hch⟩
      rw [hlp]
      simpa [lessAggressive] using hla
    · rw [if_neg hla]
      rw [List.chain'_cons']
      refine ⟨?_, ih (List.chain'_cons'.mp hch).2
        (fun x hx => hne x (List.mem_cons_of_mem _ hx))⟩
      intro y hy
      rcases add_price_level_head Side.BUY p lvl t y hy with h | h
      · subst h
        rw [hlp]
        have h1 : ¬ l.price < p := by simpa [lessAggressive] using hla
        have h2 : l.price ≠ p := hne l (by simp)
        omega
      · exact (List.chain'_cons'.mp hch).1 y h

theorem add_price_level_chain_sell (p : Int) (lvl : OMEOrdersAtPrice) (hlp : lvl.price = p) :
    ∀ ls : List OMEOrdersAtPrice,
    List.Chain' (fun x y : OMEOrdersAtPrice => x.price < y.price) ls →
    (∀ l ∈ ls, l.price ≠ p) →
    List.Chain' (fun x y : OMEOrdersAtPrice => x.price < y.price)
      (add_price_level Side.SELL p lvl ls) := by
  intro ls
  induction ls with
  | nil => intro _ _; simp [add_price_level]
  | cons l t ih =>
    intro hch hne
    simp only [add_price_level]
    by_cases hla : lessAggressive Side.SELL p l = true
    · rw [if_pos hla]
      rw [List.chain'_cons]
      refine ⟨?_, hch⟩
      rw [hlp]
      simpa [lessAggressive] using hla
    · rw [if_neg hla]
      rw [List.chain'_cons']
      refine ⟨?_, ih (List.chain'_cons'.mp hch).2
        (fun x hx => hne x (List.mem_cons_of_mem _ hx))⟩
      intro y hy
      rcases add_price_level_head Side.SELL p lvl t y hy with h | h
      · subst h
        rw [hlp]
        have h1 : ¬ p < l.price := by simpa [lessAggressive] using hla
        have h2 : l.price ≠ p := hne l (by simp)
        omega
      · exact (List.chain'_cons'.mp hch).1 y h

theorem appendToLevel_prices (idx : Nat) (o : OMEOrder) (ls : List OMEOrdersAtPrice) :
    (appendToLevel idx o ls).map (fun l => l.price) = ls.map (fun l => l.price) := by
  simp only [appendToLevel, List.map_map]
  apply List.map_congr_left
  intro l _
  by_cases h : price_to_index l.price = idx <;> simp [h]

theorem appendToLevel_id (idx : Nat) (o : OMEOrder) :
    ∀ ls : List OMEOrdersAtPrice, (∀ l ∈ ls, price_to_index l.price ≠ idx) →
    appendToLevel idx o ls = ls := by
  intro ls h
  induction ls with
  | nil => rfl
  | cons l t ih =>
    simp only [appendToLevel, List.map_cons] at ih ⊢
    rw [if_neg (h l (List.mem_cons_self l t)),
      ih (fun x hx => h x (List.mem_cons_of_mem _ hx))]

theorem appendToLevel_sideOk (idx : Nat) (o : OMEOrder) (s : Side)
    (ls : List OMEOrdersAtPrice) (hok : ∀ l ∈ ls, sideOk s l)
    (ho : ∀ l ∈ ls, price_to_index l.price = idx → o.side = s ∧ o.price = l.price) :
    ∀ l2 ∈ appendToLevel idx o ls, sideOk s l2 := by
  intro l2 hl2
  simp only [appendToLevel, List.mem_map] at hl2
  obtain ⟨l, hl, hfl⟩ := hl2
  by_cases h : price_to_index l.price = idx
  · rw [if_pos h] at hfl
    subst hfl
    obtain ⟨h1, h2, h3, h4, h5⟩ := hok l hl
    refine ⟨h1, by simp, h3, h4, ?_⟩
    intro o2 ho2
    rcases List.mem_append.mp ho2 with h6 | h6
    · exact h5 o2 h6
    · simp only [List.mem_singleton] at h6
      subst h6
      exact ho l hl h
  · rw [if_neg h] at hfl
    subst hfl
    exact hok l hl

theorem appendToLevel_head_price (idx : Nat) (o : OMEOrder) (ls : List OMEOrdersAtPrice) :
    ∀ x ∈ (appendToLevel idx o ls).head?, ∃ hl, ls.head? = some hl ∧ x.price = hl.price := by
  intro x hx
  cases ls with
  | nil => simp [appendToLevel] at hx
  | cons l t =>
    simp only [appendToLevel, List.map_cons, List.head?_cons, Option.mem_def,
      Option.some.injEq] at hx
    refine ⟨l, rfl, ?_⟩
    rw [← hx]
    by_cases h : price_to_index l.price = idx <;> simp [h]

theorem eraseOrder_subset (mid : Nat) :
    ∀ os : List OMEOrder, ∀ o2 ∈ eraseOrder mid os, o2 ∈ os := by
  intro os
  induction os with
  | nil => intro o2 h; simp [eraseOrder] at h
  | cons o t ih =>
    intro o2 h
    simp only [eraseOrder] at h
    split at h
    · exact List.mem_cons_of_mem _ h
    · rcases List.mem_cons.mp h with h2 | h2
      · simp [h2]
      · exact List.mem_cons_of_mem _ (ih o2 h2)

theorem removeOrderFromSide_prices (o : OMEOrder) :
    ∀ ls : List OMEOrdersAtPrice,
    List.Sublist ((removeOrderFromSide o ls).map (fun l => l.price))
      (ls.map (fun l => l.price)) := by
  intro ls
  induction ls with
  | nil => simp [removeOrderFromSide]
  | cons l t ih =>
    simp only [removeOrderFromSide]
    split
    · split
      · exact List.sublist_cons_self _ _
      · simp
    · exact ih.cons₂ _

theorem removeOrderFromSide_sideOk (o : OMEOrder) (s : Side) :
    ∀ ls : List OMEOrdersAtPrice, (∀ l ∈ ls, sideOk s l) →
    ∀ l2 ∈ removeOrderFromSide o ls, sideOk s l2 := by
  intro ls
  induction ls with
  | nil => intro _ l2 hl2; simp [removeOrderFromSide] at hl2
  | cons l t ih =>
    intro hok l2 hl2
    simp only [removeOrderFromSide] at hl2
    by_cases hidx : price_to_index l.price = price_to_index o.price
    · rw [if_pos hidx] at hl2
      by_cases hemp : (eraseOrder o.market_order_id l.orders).isEmpty = true
      · rw [if_pos hemp] at hl2
        exact hok l2 (List.mem_cons_of_mem _ hl2)
      · rw [if_neg hemp] at hl2
        rcases List.mem_cons.mp hl2 with h2 | h2
        · subst h2
          obtain ⟨h1, _, h3, h4, h5⟩ := hok l (by simp)
          refine ⟨h1, by simpa using hemp, h3, h4, ?_⟩
          intro o2 ho2
          exact h5 o2 (eraseOrder_subset _ _ o2 ho2)
        · exact hok l2 (List.mem_cons_of_mem _ h2)
    · rw [if_neg hidx] at hl2
      rcases List.mem_cons.mp hl2 with h2 | h2
      · subst h2
        exact hok l2 (by simp)
      · exact ih (fun x hx => hok x (List.mem_cons_of_mem _ hx)) l2 h2

theorem price_to_index_inj (a b : Int) (ha0 : 0 ≤ a) (ha : a < (MAX_PRICE_LEVELS : Int))
    (hb0 : 0 ≤ b) (hb : b < (MAX_PRICE_LEVELS : Int))
    (h : price_to_index a = price_to_index b) : a = b := by
  simp only [price_to_index, MAX_PRICE_LEVELS, OME_SIZE] at h ha hb
  omega

theorem get_level_none (b : OMEOrderBook) (p : Int)
    (h : b.get_level_for_price p = none) :
    ∀ l ∈ b.bids_by_price ++ b.asks_by_price,
      price_to_index l.price ≠ price_to_index p := by
  intro l hl
  have h2 := List.find?_eq_none.mp h l hl
  simpa using h2

theorem get_level_some (b : OMEOrderBook) (p : Int) (lvl : OMEOrdersAtPrice)
    (h : b.get_level_for_price p = some lvl) :
    lvl ∈ b.bids_by_price ++ b.asks_by_price ∧
      price_to_index lvl.price = price_to_index p := by
  refine ⟨List.mem_of_find?_eq_some h, ?_⟩
  have h2 := List.find?_some h
  simpa using h2

theorem chain_all_of_head {R : Int → Int → Prop} (htrans : Transitive R)
    {ls : List OMEOrdersAtPrice}
    (hch : List.Chain' (fun a b : OMEOrdersAtPrice => R a.price b.price) ls)
    {p : Int} (hhead : ∀ hl ∈ ls.head?, R p hl.price) :
    ∀ l ∈ ls, R p l.price := by
  cases ls with
  | nil => simp
  | cons hd t =>
    intro l hl
    haveI : IsTrans Int R := ⟨htrans⟩
    have hp : R p hd.price := hhead hd rfl
    rcases List.mem_cons.mp hl with h | h
    · subst h; exact hp
    · rw [← List.chain'_map (fun l : OMEOrdersAtPrice => l.price),
        List.chain'_iff_pairwise] at hch
      exact htrans hp ((List.pairwise_cons.mp hch).1 l.price (List.mem_map_of_mem _ h))

theorem find_match_WF_buy (b1 : OMEOrderBook) (c coid t nmo : Nat) (p : Int) (q : Nat)
    (hwf : BookWF b1) :
    BookWF (b1.find_match c coid t Side.BUY p q nmo).2.1 ∧
    ((b1.find_match c coid t Side.BUY p q nmo).1 ≠ 0 →
      ∀ la ∈ (b1.find_match c coid t Side.BUY p q nmo).2.1.asks_by_price, p < la.price) := by
  obtain ⟨hwb, hwa, hcb, hca, hnc⟩ := hwf
  have htlt : Transitive (fun a b : Int => a < b) := by intro x y z h1 h2; omega
  obtain ⟨hA, hB, hC⟩ := findMatchLoop_book_inv t c Side.BUY coid nmo p Side.SELL
    (ordersCount b1.asks_by_price) q b1.asks_by_price le_rfl hwa
  have hch2 := chain_prices_of_sublist (R := fun a b : Int => a < b) htlt hB hca
  simp only [OMEOrderBook.find_match]
  constructor
  · refine ⟨hwb, hA, hcb, hch2, ?_⟩
    intro lb hlb la hla
    obtain ⟨hl, hhl, hor⟩ :=
      head_price_of_sublist (R := fun a b : Int => a < b) htlt hB hca la hla
    have h3 := hnc lb hlb hl hhl
    rcases hor with h | h <;> omega
  · intro hr la hla
    have hC2 : ∀ hl ∈ (findMatchLoop t c Side.BUY coid nmo p q b1.asks_by_price).2.1.head?,
        p < hl.price := by
      intro hl hm2
      have h4 := hC hr hl hm2
      simpa [breaksCross] using h4
    exact chain_all_of_head (R := fun a b : Int => a < b) htlt hch2 hC2 la hla

theorem find_match_WF_sell (b1 : OMEOrderBook) (c coid t nmo : Nat) (p : Int) (q : Nat)
    (hwf : BookWF b1) :
    BookWF (b1.find_match c coid t Side.SELL p q nmo).2.1 ∧
    ((b1.find_match c coid t Side.SELL p q nmo).1 ≠ 0 →
      ∀ lb ∈ (b1.find_match c coid t Side.SELL p q nmo).2.1.bids_by_price, lb.price < p) := by
  obtain ⟨hwb, hwa, hcb, hca, hnc⟩ := hwf
  have htgt : Transitive (fun a b : Int => b < a) := by intro x y z h1 h2; omega
  obtain ⟨hA, hB, hC⟩ := findMatchLoop_book_inv t c Side.SELL coid nmo p Side.BUY
    (ordersCount b1.bids_by_price) q b1.bids_by_price le_rfl hwb
  have hch2 := chain_prices_of_sublist (R := fun a b : Int => b < a) htgt hB hcb
  simp only [OMEOrderBook.find_match]
  constructor
  · refine ⟨hA, hwa, hch2, hca, ?_⟩
    intro lb hlb la hla
    obtain ⟨hl, hhl, hor⟩ :=
      head_price_of_sublist (R := fun a b : Int => b < a) htgt hB hcb lb hlb
    have h3 := hnc hl hhl la hla
    rcases hor with h | h <;> omega
  · intro hr lb hlb
    have hC2 : ∀ hl ∈ (findMatchLoop t c Side.SELL coid nmo p q b1.bids_by_price).2.1.head?,
        hl.price < p := by
      intro hl hm2
      have h4 := hC hr hl hm2
      simpa [breaksCross] using h4
    exact chain_all_of_head (R := fun a b : Int => b < a) htgt hch2 hC2 lb hlb

theorem add_order_to_book_WF_buy (B : OMEOrderBook) (o : OMEOrder)
    (hwf : BookWF B) (hos : o.side = Side.BUY) (hp0 : 0 ≤ o.price)
    (hpN : o.price < (MAX_PRICE_LEVELS : Int))
    (hask : ∀ la ∈ B.asks_by_price, o.price < la.price) :
    BookWF (B.add_order_to_book o) := by
  obtain ⟨hwb, hwa, hcb, hca, hnc⟩ := hwf
  have htgt : Transitive (fun a b : Int => b < a) := by intro x y z h1 h2; omega
  have haneq : ∀ la ∈ B.asks_by_price,
      price_to_index la.price ≠ price_to_index o.price := by
    intro la hla heq
    obtain ⟨_, _, h3, h4, _⟩ := hwa la hla
    have h5 := price_to_index_inj la.price o.price h3 h4 hp0 hpN heq
    have h6 := hask la hla
    omega
  cases hlev : B.get_level_for_price o.price with
  | none =>
    have hbneq : ∀ lb ∈ B.bids_by_price, lb.price ≠ o.price := by
      intro lb hlb heq
      exact get_level_none B o.price hlev lb (List.mem_append.mpr (Or.inl hlb))
        (by rw [heq])
    have heq : B.add_order_to_book o =
        { B with bids_by_price :=
            (add_price_level o.side o.price
              { side := o.side, price := o.price, orders := [o] } B.bids_by_price) } := by
      simp only [OMEOrderBook.add_order_to_book, hlev]
      rw [if_pos hos]
    rw [heq, hos]
    refine ⟨?_, hwa, ?_, hca, ?_⟩
    · intro l hl
      rcases add_price_level_mem Side.BUY o.price _ _ l hl with h | h
      · subst h
        exact ⟨rfl, by simp, hp0, hpN, fun o2 ho2 => by
          simp only [List.mem_singleton] at ho2
          subst ho2
          exact ⟨hos, rfl⟩⟩
      · exact hwb l h
    · exact add_price_level_chain_buy o.price _ rfl _ hcb hbneq
    · intro lb hlb la hla
      rcases add_price_level_head Side.BUY o.price _ _ lb hlb with h | h
      · subst h
        exact hask la (List.mem_of_mem_head? hla)
      · exact hnc lb h la hla
  | some lvl0 =>
    have heq : B.add_order_to_book o = { B with
        bids_by_price := appendToLevel (price_to_index o.price) o B.bids_by_price,
        asks_by_price := appendToLevel (price_to_index o.price) o B.asks_by_price } := by
      simp only [OMEOrderBook.add_order_to_book, hlev]
    rw [heq, appendToLevel_id _ _ _ haneq]
    refine ⟨?_, hwa, ?_, hca, ?_⟩
    · refine appendToLevel_sideOk _ _ _ _ hwb ?_
      intro l hl hidx
      obtain ⟨_, _, h3, h4, _⟩ := hwb l hl
      have h5 := price_to_index_inj l.price o.price h3 h4 hp0 hpN hidx
      exact ⟨hos, h5.symm⟩
    · exact chain_prices_of_sublist (R := fun a b : Int => b < a) htgt
        (by rw [appendToLevel_prices]) hcb
    · intro lb hlb la hla
      obtain ⟨hl, hhl, hp⟩ := appendToLevel_head_price _ _ _ lb hlb
      rw [hp]
      exact hnc hl hhl la hla

theorem add_order_to_book_WF_sell (B : OMEOrderBook) (o : OMEOrder)
    (hwf : BookWF B) (hos : o.side = Side.SELL) (hp0 : 0 ≤ o.price)
    (hpN : o.price < (MAX_PRICE_LEVELS : Int))
    (hbid : ∀ lb ∈ B.bids_by_price, lb.price < o.price) :
    BookWF (B.add_order_to_book o) := by
  obtain ⟨hwb, hwa, hcb, hca, hnc⟩ := hwf
  have htlt : Transitive (fun a b : Int => a < b) := by intro x y z h1 h2; omega
  have hbneq : ∀ lb ∈ B.bids_by_price,
      price_to_index lb.price ≠ price_to_index o.price := by
    intro lb hlb heq
    obtain ⟨_, _, h3, h4, _⟩ := hwb lb hlb
    have h5 := price_to_index_inj lb.price o.price h3 h4 hp0 hpN heq
    have h6 := hbid lb hlb
    omega
  cases hlev : B.get_level_for_price o.price with
  | none =>
    have haneq : ∀ la ∈ B.asks_by_price, la.price ≠ o.price := by
      intro la hla heq
      exact get_level_none B o.price hlev la (List.mem_append.mpr (Or.inr hla))
        (by rw [heq])
    have hside : ¬ o.side = Side.BUY := by rw [hos]; intro h; cases h
    have heq : B.add_order_to_book o =
        { B with asks_by_price :=
            (add_price_level o.side o.price
              { side := o.side, price := o.price, orders := [o] } B.asks_by_price) } := by
      simp only [OMEOrderBook.add_order_to_book, hlev]
      rw [if_neg hside]
    rw [heq, hos]
    refine ⟨hwb, ?_, hcb, ?_, ?_⟩
    · intro l hl
      rcases add_price_level_mem Side.SELL o.price _ _ l hl with h | h
      · subst h
        exact ⟨rfl, by simp, hp0, hpN, fun o2 ho2 => by
          simp only [List.mem_singleton] at ho2
          subst ho2
          exact ⟨hos, rfl⟩⟩
      · exact hwa l h
    · exact add_price_level_chain_sell o.price _ rfl _ hca haneq
    · intro lb hlb la hla
      rcases add_price_level_head Side.SELL o.price _ _ la hla with h | h
      · subst h
        exact hbid lb (List.mem_of_mem_head? hlb)
      · exact hnc lb hlb la h
  | some lvl0 =>
    have heq : B.add_order_to_book o = { B with
        bids_by_price := appendToLevel (price_to_index o.price) o B.bids_by_price,
        asks_by_price := appendToLevel (price_to_index o.price) o B.asks_by_price } := by
      simp only [OMEOrderBook.add_order_to_book, hlev]
    rw [heq, appendToLevel_id _ _ _ hbneq]
    refine ⟨hwb, ?_, hcb, ?_, ?_⟩
    · refine appendToLevel_sideOk _ _ _ _ hwa ?_
      intro l hl hidx
      obtain ⟨_, _, h3, h4, _⟩ := hwa l hl
      have h5 := price_to_index_inj l.price o.price h3 h4 hp0 hpN hidx
      exact ⟨hos, h5.symm⟩
    · exact chain_prices_of_sublist (R := fun a b : Int => a < b) htlt
        (by rw [appendToLevel_prices]) hca
    · intro lb hlb la hla
      obtain ⟨hl, hhl, hp⟩ := appendToLevel_head_price _ _ _ la hla
      rw [hp]
      exact hnc lb hlb hl hhl

theorem remove_WF (b : OMEOrderBook) (o : OMEOrder) (hwf : BookWF b) :
    BookWF (b.remove_order_from_book o) := by
  obtain ⟨hwb, hwa, hcb, hca, hnc⟩ := hwf
  have htlt : Transitive (fun a b : Int => a < b) := by intro x y z h1 h2; omega
  have htgt : Transitive (fun a b : Int => b < a) := by intro x y z h1 h2; omega
  unfold OMEOrderBook.remove_order_from_book
  split
  · refine ⟨removeOrderFromSide_sideOk o Side.BUY _ hwb, hwa,
      chain_prices_of_sublist (R := fun a b : Int => b < a) htgt
        (removeOrderFromSide_prices o _) hcb, hca, ?_⟩
    intro lb hlb la hla
    obtain ⟨hl, hhl, hor⟩ := head_price_of_sublist (R := fun a b : Int => b < a) htgt
      (removeOrderFromSide_prices o _) hcb lb hlb
    have h3 := hnc hl hhl la hla
    rcases hor with h | h <;> omega
  · refine ⟨hwb, removeOrderFromSide_sideOk o Side.SELL _ hwa,
      hcb, chain_prices_of_sublist (R := fun a b : Int => a < b) htlt
        (removeOrderFromSide_prices o _) hca, ?_⟩
    intro lb hlb la hla
    obtain ⟨hl, hhl, hor⟩ := head_price_of_sublist (R := fun a b : Int => a < b) htlt
      (removeOrderFromSide_prices o _) hca la hla
    have h3 := hnc lb hlb hl hhl
    rcases hor with h | h <;> omega

theorem cancel_preserves_WF (b : OMEOrderBook) (c oid t : Nat)
    (res : OMEOrderBook × OMEClientResponse × List OMEMarketUpdate)
    (hwf : BookWF b) (h : b.cancel c oid t = Except.ok res) : BookWF res.1 := by
  simp only [OMEOrderBook.cancel] at h
  by_cases hc : c < MAX_N_CLIENTS
  · rw [if_pos hc] at h
    by_cases ho : oid < MAX_ORDER_IDS
    · rw [if_pos ho] at h
      cases hfind : b.lookupClientOrder c oid with
      | none =>
        rw [hfind] at h
        injection h with h
        rw [← h]
        exact hwf
      | some o =>
        rw [hfind] at h
        injection h with h
        rw [← h]
        exact remove_WF b o hwf
    · rw [if_neg ho] at h
      cases h
  · rw [if_neg hc] at h
    injection h with h
    rw [← h]
    exact hwf

theorem add_preserves_WF (b : OMEOrderBook) (c coid t : Nat) (s : Side) (p : Int) (q : Nat)
    (res : OMEOrderBook × List OMEClientResponse × List OMEMarketUpdate)
    (hwf : BookWF b) (hside : s = Side.BUY ∨ s = Side.SELL)
    (hp0 : 0 ≤ p) (hpN : p < (MAX_PRICE_LEVELS : Int))
    (h : b.add c coid t s p q = Except.ok res) : BookWF res.1 := by
  have hstr := add_structure b c coid t s p q res _ rfl h
  have hwf1 : BookWF { b with next_market_oid := b.next_market_oid + 1 } := hwf
  rcases hside with hs | hs
  · subst hs
    obtain ⟨hwfm, hbound⟩ := find_match_WF_buy
      { b with next_market_oid := b.next_market_oid + 1 } c coid t b.next_market_oid p q hwf1
    by_cases hq : (OMEOrderBook.find_match { b with next_market_oid := b.next_market_oid + 1 }
        c coid t Side.BUY p q b.next_market_oid).1 = 0
    · rw [(hstr.2.1 hq).2]
      exact hwfm
    · rw [(hstr.2.2 hq).2]
      exact add_order_to_book_WF_buy _ _ hwfm rfl hp0 hpN (hbound hq)
  · subst hs
    obtain ⟨hwfm, hbound⟩ := find_match_WF_sell
      { b with next_market_oid := b.next_market_oid + 1 } c coid t b.next_market_oid p q hwf1
    by_cases hq : (OMEOrderBook.find_match { b with next_market_oid := b.next_market_oid + 1 }
        c coid t Side.SELL p q b.next_market_oid).1 = 0
    · rw [(hstr.2.1 hq).2]
      exact hwfm
    · rw [(hstr.2.2 hq).2]
      exact add_order_to_book_WF_sell _ _ hwfm rfl hp0 hpN (hbound hq)

theorem stepBook_WF (b b2 : OMEOrderBook) (op : BookOp) (hwf : BookWF b)
    (hop : validOp op) (h : stepBook b op = Except.ok b2) : BookWF b2 := by
  cases op with
  | add c coid t s p q =>
    obtain ⟨hside, hp0, hpN⟩ := hop
    simp only [stepBook] at h
    cases hadd : b.add c coid t s p q with
    | error e =>
      rw [hadd] at h
      cases h
    | ok res =>
      rw [hadd] at h
      simp only [Except.map] at h
      injection h with h
      rw [← h]
      exact add_preserves_WF b c coid t s p q res hwf hside hp0 hpN hadd
  | cancel c oid t =>
    simp only [stepBook] at h
    cases hcan : b.cancel c oid t with
    | error e =>
      rw [hcan] at h
      cases h
    | ok res =>
      rw [hcan] at h
      simp only [Except.map] at h
      injection h with h
      rw [← h]
      exact cancel_preserves_WF b c oid t res hwf hcan

theorem runBook_WF : ∀ (ops : List BookOp) (b b2 : OMEOrderBook), BookWF b →
    (∀ op ∈ ops, validOp op) → runBook b ops = Except.ok b2 → BookWF b2 := by
  intro ops
  induction ops with
  | nil =>
    intro b b2 hwf _ h
    simp only [runBook] at h
    injection h with h
    rw [← h]
    exact hwf
  | cons op ops ih =>
    intro b b2 hwf hops h
    simp only [runBook] at h
    cases hstep : stepBook b op with
    | error e =>
      rw [hstep] at h
      cases h
    | ok b3 =>
      rw [hstep] at h
      exact ih b3 b2 (stepBook_WF b b3 op hwf (hops op (by simp)) hstep)
        (fun o2 ho2 => hops o2 (List.mem_cons_of_mem _ ho2)) h

theorem mk0_WF : BookWF OMEOrderBook.mk0 := by
  refine ⟨?_, ?_, ?_, ?_, ?_⟩ <;> simp [OMEOrderBook.mk0]

/-- C2: starting from the empty exchange book, after every finite sequence
    of completed add and cancel operations (real side, price inside the
    direct-address range), if both sides of the book are non-empty then
    the best bid's price is strictly below the best ask's price: the book
    is never crossed at a quiescent point (INV-3). -/
theorem claim_C2_no_crossed_book (ops : List BookOp) (b : OMEOrderBook)
    (hops : ∀ op ∈ ops, validOp op)
    (h : runBook OMEOrderBook.mk0 ops = Except.ok b) :
    notCrossed b :=
  (runBook_WF ops OMEOrderBook.mk0 b mk0_WF hops h).2.2.2.2

/-- C2 witness: a bid at 5 and an ask at 7 rest from two valid adds, and
    the claim yields the uncrossed final book. -/
theorem claim_C2_witness :
    (∀ op ∈ [BookOp.add 0 0 0 Side.BUY 5 10, BookOp.add 1 1 0 Side.SELL 7 10],
      validOp op) ∧
    runBook OMEOrderBook.mk0
      [BookOp.add 0 0 0 Side.BUY 5 10, BookOp.add 1 1 0 Side.SELL 7 10] =
      Except.ok
        { bids_by_price :=
            [{ side := Side.BUY, price := 5,
               orders := [{ ticker_id := 0, client_id := 0, client_order_id := 0,
                            market_order_id := 1, side := Side.BUY, price := 5,
                            qty := 10, priority := 1 }] }],
          asks_by_price :=
            [{ side := Side.SELL, price := 7,
               orders := [{ ticker_id := 0, client_id := 1, client_order_id := 1,
                            market_order_id := 2, side := Side.SELL, price := 7,
                            qty := 10, priority := 1 }] }],
          next_market_oid := 3 } ∧
    notCrossed
        { bids_by_price :=
            [{ side := Side.BUY, price := 5,
               orders := [{ ticker_id := 0, client_id := 0, client_order_id := 0,
                            market_order_id := 1, side := Side.BUY, price := 5,
                            qty := 10, priority := 1 }] }],
          asks_by_price :=
            [{ side := Side.SELL, price := 7,
               orders := [{ ticker_id := 0, client_id := 1, client_order_id := 1,
                            market_order_id := 2, side := Side.SELL, price := 7,
                            qty := 10, priority := 1 }] }],
          next_market_oid := 3 } := by
  have hops : ∀ op ∈ [BookOp.add 0 0 0 Side.BUY 5 10, BookOp.add 1 1 0 Side.SELL 7 10],
      validOp op := by
    intro op hop
    fin_cases hop
    · exact ⟨Or.inl rfl, by norm_num, by norm_num [MAX_PRICE_LEVELS, OME_SIZE]⟩
    · exact ⟨Or.inr rfl, by norm_num, by norm_num [MAX_PRICE_LEVELS, OME_SIZE]⟩
  have hrun : runBook OMEOrderBook.mk0
      [BookOp.add 0 0 0 Side.BUY 5 10, BookOp.add 1 1 0 Side.SELL 7 10] =
      Except.ok
        { bids_by_price :=
            [{ side := Side.BUY, price := 5,
               orders := [{ ticker_id := 0, client_id := 0, client_order_id := 0,
                            market_order_id := 1, side := Side.BUY, price := 5,
                            qty := 10, priority := 1 }] }],
          asks_by_price :=
            [{ side := Side.SELL, price := 7,
               orders := [{ ticker_id := 0, client_id := 1, client_order_id := 1,
                            market_order_id := 2, side := Side.SELL, price := 7,
                            qty := 10, priority := 1 }] }],
          next_market_oid := 3 } := by
    simp [runBook, stepBook, Except.map, OMEOrderBook.add, OMEOrderBook.find_match,
      findMatchLoop, OMEOrderBook.mk0, OMEOrderBook.add_order_to_book,
      OMEOrderBook.get_level_for_price, price_to_index, add_price_level,
      OMEOrderBook.get_next_priority, breaksCross, lessAggressive, appendToLevel,
      MAX_PRICE_LEVELS, MAX_N_CLIENTS, MAX_ORDER_IDS, OME_SIZE, OrderID_INVALID,
      Priority_INVALID]
  exact ⟨hops, hrun, claim_C2_no_crossed_book _ _ hops hrun⟩
